import Mathlib

/-!
Verification of the CoIF-to-LSIF correlation and graph-emission engine
(`src/lsif.ts`).  The engine takes a correlated fact state (documents,
ranges, definition groups with their referencing ranges, hovers, and
optional monikers) and produces a stream of LSIF vertices and edges.

The embedding below follows the source closely:
  * JavaScript `Map`s and `Set`s are association lists / lists iterated in
    insertion order (which is exactly how JS iterates them);
  * `value.split(':')` is `splitOnColon` on the character list;
  * `parseInt(s, 10)` is `parseIntJS`, returning `none` for `NaN`;
  * lodash `groupBy` + `toPairs` is `groupPairs` (first-occurrence key
    order, element order preserved);
  * template-literal number rendering is `natToString` / `intToString`
    (decimal), with `NaN` rendered as `"NaN"`;
  * a thrown exception is an `Except.error`.
-/

/-! ## JavaScript-level primitives -/

/-- `Map.get`: look up a key in an association list (insertion order;
a JS `Map` has no duplicate keys, so first match is the match). -/
def lookupA {α : Type} (k : String) : List (String × α) → Option α
  | [] => none
  | (k', v) :: rest => if k' = k then some v else lookupA k rest

/-- `value.split(':')` on the character list.  Always returns a non-empty
list; splitting the empty string gives `[[]]`, matching JS. -/
def splitOnColon : List Char → List (List Char)
  | [] => [[]]
  | c :: cs =>
    if c = ':' then [] :: splitOnColon cs
    else
      match splitOnColon cs with
      | [] => [[c]]
      | r :: rs => (c :: r) :: rs

/-- The decimal digit character for `d < 10`. -/
def digitChar (d : Nat) : Char := Char.ofNat (48 + d)

/-- Decimal digits of `n`, most significant first, accumulated into `acc`.
Fuel-based so that it reduces in the kernel; `natToString` supplies
`fuel = n`, which is always enough. -/
def natToDigitsAux : Nat → Nat → List Char → List Char
  | 0, n, acc => digitChar (n % 10) :: acc
  | fuel + 1, n, acc =>
    if n < 10 then digitChar n :: acc
    else natToDigitsAux fuel (n / 10) (digitChar (n % 10) :: acc)

/-- Decimal digits of a natural number, most significant first. -/
def natToDigits (n : Nat) : List Char := natToDigitsAux n n []

/-- Decimal rendering of a natural number (JS number-to-string for
non-negative integers). -/
def natToString (n : Nat) : String := ⟨natToDigits n⟩

/-- Decimal rendering of an integer (JS number-to-string for integers). -/
def intToString (i : Int) : String :=
  if i < 0 then "-" ++ natToString i.natAbs else natToString i.natAbs

/-- A JS number restricted to the values that occur here: an integer or
`NaN` (`none`).  `parseInt` produces `NaN` on non-numeric input and the
engine never filters it out. -/
abbrev JSNum := Option Int

/-- Template-literal rendering of a `JSNum` (`NaN` prints as `"NaN"`). -/
def jsNumToString : JSNum → String
  | none => "NaN"
  | some i => intToString i

/-- Value of a list of decimal digit characters (the digit-consuming core
of JS `parseInt(s, 10)`). -/
def digitsVal (ds : List Char) : Nat :=
  ds.foldl (fun a c => 10 * a + (c.toNat - 48)) 0

/-- JS `parseInt(s, 10)` after sign handling: consume leading decimal
digits, ignore the rest, `NaN` (`none`) if there is no leading digit. -/
def parseNatDigits (s : List Char) : Option Nat :=
  let ds := s.takeWhile Char.isDigit
  if ds.isEmpty then none else some (digitsVal ds)

/-- JS `parseInt(s, 10)`: skip leading whitespace, optional sign, then
leading decimal digits; `NaN` (`none`) if no digits follow. -/
def parseIntJS (s : List Char) : Option Int :=
  match s.dropWhile Char.isWhitespace with
  | '-' :: rest => (parseNatDigits rest).map (fun n => -(n : Int))
  | '+' :: rest => (parseNatDigits rest).map (fun n => (n : Int))
  | other => (parseNatDigits other).map (fun n => (n : Int))

/-- Add one keyed element to a lodash `groupBy` accumulator: append to the
existing group for the key, or start a new group at the end. -/
def addToGroup (k : String) (x : String) :
    List (String × List String) → List (String × List String)
  | [] => [(k, [x])]
  | (k', xs) :: rest =>
    if k' = k then (k', xs ++ [x]) :: rest else (k', xs) :: addToGroup k x rest

/-- The `groupBy` accumulator loop: fold the keyed elements into groups. -/
def groupPairsAux (acc : List (String × List String)) :
    List (String × String) → List (String × List String)
  | [] => acc
  | (k, x) :: rest => groupPairsAux (addToGroup k x acc) rest

/-- lodash `toPairs(groupBy(xs, f))` once every element has been paired
with its key: groups in first-occurrence key order, elements in order. -/
def groupPairs (l : List (String × String)) : List (String × List String) :=
  groupPairsAux [] l

/-! ## Data model -/

/-- An LSP position as it flows through the converter (`parseInt` output,
so possibly `NaN`). -/
structure Pos where
  line : JSNum
  character : JSNum
  deriving DecidableEq, Repr

/-- An LSP location: a document URI plus a start and end position. -/
structure Loc where
  uri : String
  start : Pos
  stop : Pos
  deriving DecidableEq, Repr

/-- `ElementTypes` from the LSIF protocol. -/
inductive ElemType where
  | vertex
  | edge
  deriving DecidableEq, Repr

/-- One emitted LSIF item (a vertex or an edge).  Fields that a given
vertex/edge label does not carry stay `none`, mirroring the JSON output
where absent fields are simply not present. -/
structure Item where
  id : String
  type : ElemType
  label : String
  outV : Option String := none
  inV : Option String := none
  inVs : Option (List String) := none
  document : Option String := none
  property : Option String := none
  hoverContents : Option String := none
  data : Option String := none
  kind : Option String := none
  scope : Option String := none
  uri : Option String := none
  languageId : Option String := none
  contents : Option String := none
  identifier : Option String := none
  scheme : Option String := none
  manager : Option String := none
  name : Option String := none
  version : Option String := none
  projectRoot : Option String := none
  positionEncoding : Option String := none
  toolName : Option String := none
  toolArgs : Option (List String) := none
  toolVersion : Option String := none
  start : Option Pos := none
  stop : Option Pos := none
  deriving DecidableEq, Repr

/-- A moniker record: `{ moniker, packageInformation }`. -/
structure MonikerInfo where
  moniker : String
  packageInformation : String
  deriving DecidableEq, Repr

/-- The correlated state handed to the emission engine (`ffff`): the
mutable maps and sets of `writeLSIF`, frozen.  JS `Set`s and `Map`s are
lists in insertion order. -/
structure EngineState where
  docs : List String
  rangesByDoc : List (String × List String)
  refsByDef : List (String × List String)
  hoverByDef : List (String × String)
  locByRange : List (String × Loc)
  importMonikerByRange : List (String × MonikerInfo)
  exportMonikerByRange : List (String × MonikerInfo)
  deriving DecidableEq, Repr

/-! ## Location parsing and printing -/

/-- `stringifyLocation`: `` `${loc.uri}:${loc.range.start.line}:${loc.range.start.character}` ``. -/
def stringifyLocation (loc : Loc) : String :=
  loc.uri ++ ":" ++ jsNumToString loc.start.line ++ ":" ++ jsNumToString loc.start.character

/-- The result of `parseFilePosition`. -/
structure FilePosition where
  uri : String
  line : JSNum
  character : JSNum
  deriving DecidableEq, Repr

/-- `parseFilePosition`: split on `':'`; fewer than three components is a
thrown parse error; the last two components go through `parseInt` (which
yields `NaN`, not an error, on non-numeric text); the leading components
are rejoined with the empty string. -/
def parseFilePositionE (value : String) : Except String FilePosition :=
  let components := splitOnColon value.data
  if components.length < 3 then
    .error ("expected path of the form path/to/file.cpp:<line>:<column>, got " ++ value)
  else
    let line := parseIntJS (components.getD (components.length - 2) [])
    let character := parseIntJS (components.getD (components.length - 1) [])
    let path : String := ⟨(components.take (components.length - 2)).flatten⟩
    .ok { uri := path, line := line, character := character }

/-! ## Emission: individual items

Each `make…` definition below is the object literal passed to `emit` at
the corresponding numbered step of `emitDefsRefsHovers` / the surrounding
driver `ffff`. -/

/-- `makeMeta`. -/
def makeMeta (root inFileGlob : String) : Item :=
  { id := "meta", type := .vertex, label := "metaData",
    projectRoot := some "file:///", version := some "0.4.0",
    positionEncoding := some "utf-16",
    toolName := some "lsif-cpp", toolArgs := some [inFileGlob, root],
    toolVersion := some "dev" }

/-- `makeProject`. -/
def makeProject : Item :=
  { id := "project", type := .vertex, label := "project", kind := some "cpp" }

/-- `makeProjectBegin`. -/
def makeProjectBegin : Item :=
  { id := "projectBegin", data := some "project", type := .vertex,
    label := "event", kind := some "begin", scope := some "project" }

/-- `makeProjectEnd`. -/
def makeProjectEnd : Item :=
  { id := "projectEnd", data := some "project", type := .vertex,
    label := "event", kind := some "end", scope := some "project" }

/-- The document vertex of `emitDocsBegin` (contents are empty because
`includeContents` defaults to false). -/
def makeDocumentVertex (doc : String) : Item :=
  { id := "document:" ++ doc, type := .vertex, label := "document",
    uri := some ("file:///" ++ doc), languageId := some "cpp",
    contents := some "" }

/-- The document-begin event of `emitDocsBegin`. -/
def makeDocumentBegin (doc : String) : Item :=
  { id := "documentBegin:" ++ doc, data := some ("document:" ++ doc),
    type := .vertex, label := "event", kind := some "begin",
    scope := some "document" }

/-- `emitDocsBegin` for one document: document vertex then begin event. -/
def emitDocsBegin (doc : String) : List Item :=
  [makeDocumentVertex doc, makeDocumentBegin doc]

/-- `makeRange`: a range vertex whose id re-stringifies the location and
whose body spreads `loc.range`. -/
def makeRange (loc : Loc) : Item :=
  { id := stringifyLocation loc, type := .vertex, label := "range",
    start := some loc.start, stop := some loc.stop }

/-- Step 1: the result-set vertex of a definition group. -/
def makeResultSet (d : String) : Item :=
  { id := "resultSet:" ++ d, label := "resultSet", type := .vertex }

/-- Step 2: the next edge from the definition range to its result set. -/
def makeNextDef (d : String) : Item :=
  { id := "next:" ++ d, type := .edge, label := "next",
    outV := some d, inV := some ("resultSet:" ++ d) }

/-- Step 2.1: the import-moniker vertex. -/
def makeImportMonikerV (d : String) (im : MonikerInfo) : Item :=
  { id := "moniker:import:" ++ d, label := "moniker", type := .vertex,
    identifier := some im.moniker, kind := some "import",
    scheme := some "cpp" }

/-- Step 2.2: the moniker edge from the result set to the import moniker. -/
def makeImportMonikerE (d : String) : Item :=
  { id := "monikerEdge:import:" ++ d, label := "moniker", type := .edge,
    inV := some ("moniker:import:" ++ d), outV := some ("resultSet:" ++ d) }

/-- Steps 2.3 and 13: the package-information vertex, keyed only by the
package identifier. -/
def makePackageV (pkg : String) : Item :=
  { id := "package:" ++ pkg, label := "packageInformation", type := .vertex,
    manager := some "cpp", name := some pkg, version := some "1.0" }

/-- Steps 2.4 and 14: the package edge, also keyed only by the package
identifier; `mon` is the moniker vertex id it hangs off. -/
def makePackageE (pkg mon : String) : Item :=
  { id := "packageEdge:" ++ pkg, label := "packageInformation",
    type := .edge, inV := some ("package:" ++ pkg), outV := some mon }

/-- Step 3: the definition-result vertex. -/
def makeDefinitionResult (d : String) : Item :=
  { id := "definition:" ++ d, label := "definitionResult", type := .vertex }

/-- Step 4: the textDocument/definition edge. -/
def makeTdDefinition (d : String) : Item :=
  { id := "textDocument/definition:" ++ d, type := .edge,
    label := "textDocument/definition",
    outV := some ("resultSet:" ++ d), inV := some ("definition:" ++ d) }

/-- Step 5: the item edge from the definition result to the definition
range, tagged with the owning document. -/
def makeItemDefinition (d : String) (defLoc : Loc) : Item :=
  { id := "item:textDocument/definition:" ++ d, type := .edge,
    label := "item", outV := some ("definition:" ++ d), inVs := some [d],
    document := some ("document:" ++ defLoc.uri) }

/-- The hover-result vertex. -/
def makeHoverV (d h : String) : Item :=
  { id := "hover:" ++ d, label := "hoverResult", type := .vertex,
    hoverContents := some h }

/-- The textDocument/hover edge. -/
def makeTdHover (d : String) : Item :=
  { id := "textDocument/hover:" ++ d, type := .edge,
    label := "textDocument/hover",
    outV := some ("resultSet:" ++ d), inV := some ("hover:" ++ d) }

/-- Step 6: the reference-result vertex. -/
def makeReferenceResult (d : String) : Item :=
  { id := "reference:" ++ d, label := "referenceResult", type := .vertex }

/-- Step 7: the textDocument/references edge. -/
def makeTdReferences (d : String) : Item :=
  { id := "textDocument/references:" ++ d, type := .edge,
    label := "textDocument/references",
    outV := some ("resultSet:" ++ d), inV := some ("reference:" ++ d) }

/-- Step 8: the item edge from the reference result to the definition
range, tagged `definitions`. -/
def makeItemRefDefinitions (d : String) (defLoc : Loc) : Item :=
  { id := "item:textDocument/references:definitions:" ++ d, type := .edge,
    label := "item", outV := some ("reference:" ++ d), inVs := some [d],
    property := some "definitions",
    document := some ("document:" ++ defLoc.uri) }

/-- Step 9: the next edge from one referencing range to the result set. -/
def makeNextRef (r d : String) : Item :=
  { id := "next:" ++ r, type := .edge, label := "next",
    outV := some r, inV := some ("resultSet:" ++ d) }

/-- Step 10: the per-document references item edge for one uri group. -/
def makeItemRefReferences (d uri : String) (rs : List String) : Item :=
  { id := "item:textDocument/references:references:" ++ d ++ ":" ++ uri,
    type := .edge, label := "item", outV := some ("reference:" ++ d),
    inVs := some rs, property := some "references",
    document := some ("document:" ++ uri) }

/-- Step 11: the export-moniker vertex. -/
def makeExportMonikerV (d : String) (em : MonikerInfo) : Item :=
  { id := "moniker:export:" ++ d, label := "moniker", type := .vertex,
    identifier := some em.moniker, kind := some "export",
    scheme := some "cpp" }

/-- Step 12: the moniker edge from the result set to the export moniker. -/
def makeExportMonikerE (d : String) : Item :=
  { id := "monikerEdge:export:" ++ d, label := "moniker", type := .edge,
    inV := some ("moniker:export:" ++ d), outV := some ("resultSet:" ++ d) }

/-- The containment edge of `emitDocsEnd` for one document. -/
def makeContains (doc : String) (ranges : List String) : Item :=
  { id := "contains:" ++ doc, type := .edge, label := "contains",
    outV := some ("document:" ++ doc), inVs := some ranges }

/-- The document-end event of `emitDocsEnd`. -/
def makeDocumentEnd (doc : String) : Item :=
  { id := "documentEnd:" ++ doc, data := some ("document:" ++ doc),
    type := .vertex, label := "event", kind := some "end",
    scope := some "document" }

/-- The project-contains edge listing every document. -/
def makeProjectContains (docs : List String) : Item :=
  { id := "projectContains", type := .edge, label := "contains",
    outV := some "project", inVs := some (docs.map (fun doc => "document:" ++ doc)) }

/-! ## Emission: the engine -/

/-- Pair every referencing range with its parsed uri, in order; the
first malformed range string throws. -/
def pairUris : List String → Except String (List (String × String))
  | [] => .ok []
  | r :: rest =>
    match parseFilePositionE r with
    | .error e => .error e
    | .ok fp =>
      match pairUris rest with
      | .error e => .error e
      | .ok qs => .ok ((fp.uri, r) :: qs)

/-- `groupBy(Array.from(refs), ref => parseFilePosition(ref).uri)` with
`toPairs`: pair every referencing range with its parsed uri, then group
by uri in first-occurrence order. -/
def refsGroupedByUri (refs : List String) :
    Except String (List (String × List String)) :=
  match pairUris refs with
  | .error e => .error e
  | .ok pairs => .ok (groupPairs pairs)

/-- The body of the `emitDefsRefsHovers` loop for one definition group,
after the definition location has been looked up and the referencing
ranges have been grouped by uri.  The list is exactly the source's
emission order, steps 1 through 14. -/
def emitDefGroupCore (st : EngineState) (d : String) (refs : List String)
    (defLoc : Loc) (groups : List (String × List String)) : List Item :=
  let importMoniker := lookupA d st.importMonikerByRange
  let exportMoniker := lookupA d st.exportMonikerByRange
  [makeResultSet d, makeNextDef d]
  ++ (match importMoniker with
      | some im =>
        [makeImportMonikerV d im, makeImportMonikerE d,
         makePackageV im.packageInformation,
         makePackageE im.packageInformation ("moniker:import:" ++ d)]
      | none =>
        [makeDefinitionResult d, makeTdDefinition d,
         makeItemDefinition d defLoc])
  ++ (match lookupA d st.hoverByDef with
      | some h => if h = "" then [] else [makeHoverV d h, makeTdHover d]
      | none => [])
  ++ [makeReferenceResult d, makeTdReferences d]
  ++ (match importMoniker with
      | some _ => []
      | none => [makeItemRefDefinitions d defLoc])
  ++ refs.map (fun r => makeNextRef r d)
  ++ groups.map (fun g => makeItemRefReferences d g.1 g.2)
  ++ (match exportMoniker with
      | some em =>
        [makeExportMonikerV d em, makeExportMonikerE d,
         makePackageV em.packageInformation,
         makePackageE em.packageInformation ("moniker:export:" ++ d)]
      | none => [])

/-- `emitDefsRefsHovers`: loop over the definition groups in insertion
order; a definition range with no registered location is a thrown
lookup error. -/
def emitGroups (st : EngineState) :
    List (String × List String) → Except String (List Item)
  | [] => .ok []
  | (d, refs) :: rest =>
    match lookupA d st.locByRange with
    | none => .error "Unable to look up def"
    | some defLoc =>
      match refsGroupedByUri refs with
      | .error e => .error e
      | .ok groups =>
        match emitGroups st rest with
        | .error e => .error e
        | .ok out => .ok (emitDefGroupCore st d refs defLoc groups ++ out)

/-- `emitDocsEnd`: for each document in insertion order, a containment
edge from the document to its ranges and then the document-end event; a
document missing from `rangesByDoc` is a thrown lookup error. -/
def emitDocsEndAux (rangesByDoc : List (String × List String)) :
    List String → Except String (List Item)
  | [] => .ok []
  | doc :: rest =>
    match lookupA doc rangesByDoc with
    | none => .error "rangesByDoc didn't contain doc"
    | some ranges =>
      match emitDocsEndAux rangesByDoc rest with
      | .error e => .error e
      | .ok out => .ok ([makeContains doc ranges, makeDocumentEnd doc] ++ out)

/-- `ffff`, the emission driver: metadata, project vertex, project-begin
event, per-document begin pairs, all range vertices, the definition
groups, per-document containment + end pairs, the project containment
edge, and the project-end event. -/
def ffff (st : EngineState) (root inFileGlob : String) :
    Except String (List Item) :=
  match emitGroups st st.refsByDef with
  | .error e => .error e
  | .ok defsOut =>
    match emitDocsEndAux st.rangesByDoc st.docs with
    | .error e => .error e
    | .ok endOut =>
      .ok ([makeMeta root inFileGlob, makeProject, makeProjectBegin]
        ++ st.docs.flatMap emitDocsBegin
        ++ st.locByRange.map (fun p => makeRange p.2)
        ++ defsOut
        ++ endOut
        ++ [makeProjectContains st.docs, makeProjectEnd])

/-! ## Lemmas about splitting and joining location strings -/

theorem splitOnColon_ne_nil (u : List Char) : splitOnColon u ≠ [] := by
  cases u with
  | nil => simp [splitOnColon]
  | cons c cs =>
    simp only [splitOnColon]
    split
    · simp
    · split <;> simp

theorem splitOnColon_no_colon {u : List Char} (h : ':' ∉ u) :
    splitOnColon u = [u] := by
  induction u with
  | nil => rfl
  | cons c cs ih =>
    simp only [List.mem_cons, not_or] at h
    have hc : ¬c = ':' := fun hh => h.1 hh.symm
    simp only [splitOnColon, if_neg hc, ih h.2]

theorem splitOnColon_append {u rest : List Char} (h : ':' ∉ u) :
    splitOnColon (u ++ ':' :: rest) = u :: splitOnColon rest := by
  induction u with
  | nil => simp [splitOnColon]
  | cons c cs ih =>
    simp only [List.mem_cons, not_or] at h
    have hc : ¬c = ':' := fun hh => h.1 hh.symm
    simp only [List.cons_append, splitOnColon, if_neg hc, List.append_eq,
      ih h.2]

/-! ## Claim C4: error handling of `parseFilePosition` -/

/-- C4 counterexample.  The location string `"a:b:c"` has three
colon-delimited components whose line and column parts are non-numeric,
yet `parseFilePosition` does not raise: `parseInt` silently produces
`NaN` for both positions.  This refutes the claim that a non-numeric
line or column component raises a fatal ParseError. -/
theorem claim_c4_counterexample :
    parseFilePositionE "a:b:c" =
      Except.ok { uri := "a", line := none, character := none } := rfl

/-- C4 (amended): `parseFilePosition` raises a fatal ParseError exactly
when the location string has fewer than three colon-delimited
components; with three or more components parsing always succeeds — in
particular for every well-formed `path:line:col` — and a non-numeric
line or column component does not raise, it yields `NaN`. -/
theorem claim_c4_amended (s : String) :
    (parseFilePositionE s).isOk = true ↔
      3 ≤ (splitOnColon s.data).length := by
  unfold parseFilePositionE
  by_cases hlen : (splitOnColon s.data).length < 3 <;>
    simp [hlen, Except.isOk, Except.toBool] <;> omega

/-! ## Lemmas about decimal rendering and `parseInt` -/

theorem digitChar_isDigit {d : Nat} (h : d < 10) :
    (digitChar d).isDigit = true := by
  interval_cases d <;> decide

theorem digitChar_toNat {d : Nat} (h : d < 10) :
    (digitChar d).toNat = 48 + d := by
  interval_cases d <;> decide

theorem natToDigitsAux_acc (fuel n : Nat) (acc : List Char) :
    natToDigitsAux fuel n acc = natToDigitsAux fuel n [] ++ acc := by
  induction fuel generalizing n acc with
  | zero => simp [natToDigitsAux]
  | succ fuel ih =>
    by_cases h : n < 10
    · simp [natToDigitsAux, h]
    · rw [natToDigitsAux, if_neg h, natToDigitsAux, if_neg h,
        ih (n / 10) (digitChar (n % 10) :: acc), ih (n / 10) [digitChar (n % 10)]]
      simp

theorem natToDigitsAux_fuel_irrel (fuel₁ : Nat) :
    ∀ fuel₂ n, n ≤ fuel₁ → n ≤ fuel₂ →
      natToDigitsAux fuel₁ n [] = natToDigitsAux fuel₂ n [] := by
  induction fuel₁ using Nat.strong_induction_on with
  | _ fuel₁ ih =>
    intro fuel₂ n h₁ h₂
    by_cases h : n < 10
    · cases fuel₁ <;> cases fuel₂ <;>
        simp [natToDigitsAux, h, Nat.mod_eq_of_lt h]
    · have h10 : 10 ≤ n := Nat.le_of_not_lt h
      obtain ⟨f₁, rfl⟩ : ∃ f₁, fuel₁ = f₁ + 1 :=
        ⟨fuel₁ - 1, by omega⟩
      obtain ⟨f₂, rfl⟩ : ∃ f₂, fuel₂ = f₂ + 1 :=
        ⟨fuel₂ - 1, by omega⟩
      rw [natToDigitsAux, if_neg h, natToDigitsAux, if_neg h,
        natToDigitsAux_acc, natToDigitsAux_acc f₂]
      have hlt : n / 10 < n := Nat.div_lt_self (by omega) (by omega)
      have hle₁ : n / 10 ≤ f₁ := by omega
      have hle₂ : n / 10 ≤ f₂ := by omega
      rw [ih f₁ (Nat.lt_succ_self f₁) f₂ (n / 10) hle₁ hle₂]

/-- The defining recursion of `natToDigits`, free of fuel. -/
theorem natToDigits_eq (n : Nat) :
    natToDigits n =
      if n < 10 then [digitChar n]
      else natToDigits (n / 10) ++ [digitChar (n % 10)] := by
  by_cases h : n < 10
  · rw [if_pos h]
    cases n with
    | zero => rfl
    | succ m => simp [natToDigits, natToDigitsAux, h]
  · have h10 : 10 ≤ n := Nat.le_of_not_lt h
    obtain ⟨f, rfl⟩ : ∃ f, n = f + 1 := ⟨n - 1, by omega⟩
    rw [if_neg h, natToDigits, natToDigitsAux, if_neg h, natToDigitsAux_acc]
    congr 1
    exact natToDigitsAux_fuel_irrel f ((f + 1) / 10) ((f + 1) / 10)
      (by omega) (le_refl _)

theorem natToDigits_all_digits (n : Nat) :
    ∀ c ∈ natToDigits n, c.isDigit = true := by
  induction n using Nat.strong_induction_on with
  | _ n ih =>
    rw [natToDigits_eq]
    by_cases h : n < 10
    · simp only [if_pos h, List.mem_singleton]
      rintro c rfl
      exact digitChar_isDigit h
    · simp only [if_neg h, List.mem_append, List.mem_singleton]
      rintro c (hc | rfl)
      · exact ih (n / 10) (Nat.div_lt_self (by omega) (by omega)) c hc
      · exact digitChar_isDigit (Nat.mod_lt _ (by omega))

theorem natToDigits_ne_nil (n : Nat) : natToDigits n ≠ [] := by
  rw [natToDigits_eq]
  by_cases h : n < 10 <;> simp [h]

theorem digitsVal_append_singleton (l : List Char) (c : Char) :
    digitsVal (l ++ [c]) = 10 * digitsVal l + (c.toNat - 48) := by
  simp [digitsVal, List.foldl_append]

theorem digitsVal_natToDigits (n : Nat) : digitsVal (natToDigits n) = n := by
  induction n using Nat.strong_induction_on with
  | _ n ih =>
    rw [natToDigits_eq]
    by_cases h : n < 10
    · rw [if_pos h]
      simp [digitsVal, digitChar_toNat h]
    · rw [if_neg h, digitsVal_append_singleton,
        ih (n / 10) (Nat.div_lt_self (by omega) (by omega)),
        digitChar_toNat (Nat.mod_lt _ (by omega))]
      omega

theorem isDigit_facts {c : Char} (h : c.isDigit = true) :
    ¬c = '-' ∧ ¬c = '+' ∧ c.isWhitespace = false ∧ ¬c = ':' := by
  have hne : ∀ c' : Char, c'.isDigit = false → ¬c = c' := by
    intro c' hc' hh
    rw [hh, hc'] at h
    exact Bool.false_ne_true h
  refine ⟨hne '-' (by decide), hne '+' (by decide), ?_, hne ':' (by decide)⟩
  simp [Char.isWhitespace, hne ' ' (by decide), hne '\t' (by decide),
    hne '\r' (by decide), hne '\n' (by decide)]

theorem parseNatDigits_of_digits {s : List Char} (hne : s ≠ [])
    (hd : ∀ c ∈ s, c.isDigit = true) :
    parseNatDigits s = some (digitsVal s) := by
  unfold parseNatDigits
  rw [List.takeWhile_eq_self_iff.mpr hd]
  simp [List.isEmpty_iff, hne]

theorem parseIntJS_of_digits {s : List Char} (hne : s ≠ [])
    (hd : ∀ c ∈ s, c.isDigit = true) :
    parseIntJS s = some (Int.ofNat (digitsVal s)) := by
  obtain ⟨c, cs, rfl⟩ : ∃ c cs, s = c :: cs := by
    cases s with
    | nil => exact absurd rfl hne
    | cons c cs => exact ⟨c, cs, rfl⟩
  have hc := isDigit_facts (hd c (List.mem_cons_self c cs))
  unfold parseIntJS
  rw [List.dropWhile_cons_of_neg (by simp [hc.2.2.1])]
  have hparse := parseNatDigits_of_digits hne hd
  split
  · next heq => exact absurd (congrArg (fun l => l.head?) heq) (by simp [hc.1])
  · next heq => exact absurd (congrArg (fun l => l.head?) heq) (by simp [hc.2.1])
  · rw [hparse]; rfl

theorem colon_not_mem_natToDigits (n : Nat) : ':' ∉ natToDigits n := by
  intro hmem
  have := natToDigits_all_digits n ':' hmem
  exact absurd this (by decide)

/-! ## Claim C9: the location round trip -/

/-- C9: for a location whose document path contains no `':'` and whose
start line and column are (non-negative) numbers,
`parseFilePosition (stringifyLocation loc)` recovers exactly the
document path and the start position.  (The colon-freedom matters:
`parseFilePosition` rejoins leading components with the empty string,
so colons inside a path would be deleted.) -/
theorem claim_c9_roundtrip (loc : Loc) (l c : Int)
    (hline : loc.start.line = some l) (hchar : loc.start.character = some c)
    (hl : 0 ≤ l) (hc : 0 ≤ c) (huri : ':' ∉ loc.uri.data) :
    parseFilePositionE (stringifyLocation loc) =
      Except.ok { uri := loc.uri, line := some l, character := some c } := by
  have hdl : intToString l = natToString l.natAbs := by
    unfold intToString
    rw [if_neg (by omega)]
  have hdc : intToString c = natToString c.natAbs := by
    unfold intToString
    rw [if_neg (by omega)]
  have hdata : (stringifyLocation loc).data =
      loc.uri.data ++ ':' :: (natToDigits l.natAbs ++ ':' :: natToDigits c.natAbs) := by
    unfold stringifyLocation
    rw [hline, hchar]
    show (loc.uri ++ ":" ++ intToString l ++ ":" ++ intToString c).data = _
    rw [hdl, hdc]
    simp only [String.data_append]
    show loc.uri.data ++ [':'] ++ natToDigits l.natAbs ++ [':'] ++ natToDigits c.natAbs = _
    simp
  have hsplit : splitOnColon (stringifyLocation loc).data =
      [loc.uri.data, natToDigits l.natAbs, natToDigits c.natAbs] := by
    rw [hdata, splitOnColon_append huri,
      splitOnColon_append (colon_not_mem_natToDigits l.natAbs),
      splitOnColon_no_colon (colon_not_mem_natToDigits c.natAbs)]
  have hpl : parseIntJS (natToDigits l.natAbs) = some l := by
    rw [parseIntJS_of_digits (natToDigits_ne_nil _) (natToDigits_all_digits _),
      digitsVal_natToDigits]
    exact congrArg some (by rw [Int.ofNat_eq_natCast]; omega)
  have hpc : parseIntJS (natToDigits c.natAbs) = some c := by
    rw [parseIntJS_of_digits (natToDigits_ne_nil _) (natToDigits_all_digits _),
      digitsVal_natToDigits]
    exact congrArg some (by rw [Int.ofNat_eq_natCast]; omega)
  unfold parseFilePositionE
  rw [hsplit]
  cases hu : loc.uri with
  | mk d => simp [hpl, hpc]

/-- C9 witness: the round trip at a concrete location. -/
theorem claim_c9_witness :
    parseFilePositionE
        (stringifyLocation
          { uri := "a.c", start := { line := some 3, character := some 7 },
            stop := { line := some 3, character := some 9 } }) =
      Except.ok { uri := "a.c", line := some 3, character := some 7 } :=
  claim_c9_roundtrip _ 3 7 rfl rfl (by decide) (by decide) (by decide)

/-! ## Decomposing a successful emission run -/

/-- One definition group's contribution to the stream: its location and
uri grouping resolved, its items exactly the fixed sub-sequence. -/
def groupRel (st : EngineState) (p : String × List String)
    (items : List Item) : Prop :=
  ∃ defLoc groups, lookupA p.1 st.locByRange = some defLoc ∧
    refsGroupedByUri p.2 = Except.ok groups ∧
    items = emitDefGroupCore st p.1 p.2 defLoc groups

/-- One document's contribution to the closing segment: its containment
edge over its registered ranges followed by its end event. -/
def docEndRel (rangesByDoc : List (String × List String)) (doc : String)
    (items : List Item) : Prop :=
  ∃ ranges, lookupA doc rangesByDoc = some ranges ∧
    items = [makeContains doc ranges, makeDocumentEnd doc]

theorem emitGroups_ok {st : EngineState} :
    ∀ {l : List (String × List String)} {out : List Item},
      emitGroups st l = .ok out →
      ∃ parts, List.Forall₂ (groupRel st) l parts ∧ out = parts.flatten := by
  intro l
  induction l with
  | nil =>
    intro out h
    rw [emitGroups] at h
    injection h with h
    exact ⟨[], .nil, by simp [h.symm]⟩
  | cons p rest ih =>
    intro out h
    obtain ⟨d, refs⟩ := p
    rw [emitGroups] at h
    cases hloc : lookupA d st.locByRange with
    | none => rw [hloc] at h; exact absurd h (by simp)
    | some defLoc =>
      rw [hloc] at h
      cases hg : refsGroupedByUri refs with
      | error e => rw [hg] at h; exact absurd h (by simp)
      | ok groups =>
        rw [hg] at h
        cases hr : emitGroups st rest with
        | error e => rw [hr] at h; exact absurd h (by simp)
        | ok out' =>
          rw [hr] at h
          injection h with h
          obtain ⟨parts, hf, hout⟩ := ih hr
          refine ⟨emitDefGroupCore st d refs defLoc groups :: parts,
            .cons ⟨defLoc, groups, hloc, hg, rfl⟩ hf, ?_⟩
          rw [← h, hout]
          simp

theorem emitDocsEndAux_ok {rangesByDoc : List (String × List String)} :
    ∀ {docs : List String} {out : List Item},
      emitDocsEndAux rangesByDoc docs = .ok out →
      ∃ parts, List.Forall₂ (docEndRel rangesByDoc) docs parts ∧
        out = parts.flatten := by
  intro docs
  induction docs with
  | nil =>
    intro out h
    rw [emitDocsEndAux] at h
    injection h with h
    exact ⟨[], .nil, by simp [h.symm]⟩
  | cons doc rest ih =>
    intro out h
    rw [emitDocsEndAux] at h
    cases hr : lookupA doc rangesByDoc with
    | none => rw [hr] at h; exact absurd h (by simp)
    | some ranges =>
      rw [hr] at h
      cases he : emitDocsEndAux rangesByDoc rest with
      | error e => rw [he] at h; exact absurd h (by simp)
      | ok out' =>
        rw [he] at h
        injection h with h
        obtain ⟨parts, hf, hout⟩ := ih he
        refine ⟨[makeContains doc ranges, makeDocumentEnd doc] :: parts,
          .cons ⟨ranges, hr, rfl⟩ hf, ?_⟩
        rw [← h, hout]
        simp

theorem ffff_ok_decomp {st : EngineState} {r g : String} {out : List Item}
    (h : ffff st r g = .ok out) :
    ∃ ds es, emitGroups st st.refsByDef = .ok ds ∧
      emitDocsEndAux st.rangesByDoc st.docs = .ok es ∧
      out = [makeMeta r g, makeProject, makeProjectBegin]
        ++ st.docs.flatMap emitDocsBegin
        ++ st.locByRange.map (fun p => makeRange p.2)
        ++ ds
        ++ es
        ++ [makeProjectContains st.docs, makeProjectEnd] := by
  unfold ffff at h
  cases h1 : emitGroups st st.refsByDef with
  | error e => rw [h1] at h; exact absurd h (by simp)
  | ok ds =>
    rw [h1] at h
    cases h2 : emitDocsEndAux st.rangesByDoc st.docs with
    | error e => rw [h2] at h; exact absurd h (by simp)
    | ok es =>
      rw [h2] at h
      injection h with h
      exact ⟨ds, es, rfl, rfl, h.symm⟩

/-! ## Small list and string helpers -/

theorem strAppend_left_inj (s a b : String) : s ++ a = s ++ b ↔ a = b := by
  constructor
  · intro h
    have hd := congrArg String.data h
    simp only [String.data_append] at hd
    exact String.ext (List.append_cancel_left hd)
  · intro h
    rw [h]

theorem countP_flatten (p : Item → Bool) (L : List (List Item)) :
    L.flatten.countP p = (L.map (fun l => l.countP p)).sum := by
  induction L with
  | nil => simp
  | cons h t ih => simp [List.countP_append, ih]

theorem filter_flatten (p : Item → Bool) (L : List (List Item)) :
    L.flatten.filter p = (L.map (fun l => l.filter p)).flatten := by
  induction L with
  | nil => simp
  | cons h t ih => simp [List.filter_append, ih]

theorem filterMap_flatten (f : Item → Option String) (L : List (List Item)) :
    L.flatten.filterMap f = (L.map (fun l => l.filterMap f)).flatten := by
  induction L with
  | nil => simp
  | cons h t ih => simp [List.filterMap_append, ih]

/-! ## Claim C5: the fixed emission order -/

/-- C5: a successful run emits, in exactly this order: one metadata item;
one project vertex; the project-begin event; per document (in order) a
document vertex then a document-begin event; all range vertices; the
per-definition-group sub-sequences; per document (in order) the
containment edge from the document to its ranges followed by the
document-end event; the project containment edge over all documents; and
finally the project-end event. -/
theorem claim_c5_emission_order {st : EngineState} {r g : String}
    {out : List Item} (h : ffff st r g = .ok out) :
    ∃ groupParts endParts,
      List.Forall₂ (groupRel st) st.refsByDef groupParts ∧
      List.Forall₂ (docEndRel st.rangesByDoc) st.docs endParts ∧
      out = [makeMeta r g, makeProject, makeProjectBegin]
        ++ st.docs.flatMap
            (fun doc => [makeDocumentVertex doc, makeDocumentBegin doc])
        ++ st.locByRange.map (fun p => makeRange p.2)
        ++ groupParts.flatten
        ++ endParts.flatten
        ++ [makeProjectContains st.docs, makeProjectEnd] := by
  obtain ⟨ds, es, h1, h2, hout⟩ := ffff_ok_decomp h
  obtain ⟨gp, hgf, hgeq⟩ := emitGroups_ok h1
  obtain ⟨ep, hef, heeq⟩ := emitDocsEndAux_ok h2
  exact ⟨gp, ep, hgf, hef, by rw [hout, hgeq, heeq]; rfl⟩

/-- A concrete correlated state in which the definition range `a:0:0`
is also one of its own referencing ranges (a definition site recorded as
a reference to itself, as happens for any input row whose range equals
its own definition range). -/
def egSelfRef : EngineState :=
  { docs := ["a"]
    rangesByDoc := [("a", ["a:0:0"])]
    refsByDef := [("a:0:0", ["a:0:0"])]
    hoverByDef := [("a:0:0", "int")]
    locByRange := [("a:0:0",
      { uri := "a", start := { line := some 0, character := some 0 },
        stop := { line := some 0, character := some 1 } })]
    importMonikerByRange := []
    exportMonikerByRange := [] }

/-- C5 witness: the emission-order decomposition at a concrete state. -/
theorem claim_c5_witness :
    ∃ groupParts endParts,
      List.Forall₂ (groupRel egSelfRef) egSelfRef.refsByDef groupParts ∧
      List.Forall₂ (docEndRel egSelfRef.rangesByDoc) egSelfRef.docs endParts ∧
      (ffff egSelfRef "r" "g").toOption.getD [] =
        [makeMeta "r" "g", makeProject, makeProjectBegin]
        ++ egSelfRef.docs.flatMap
            (fun doc => [makeDocumentVertex doc, makeDocumentBegin doc])
        ++ egSelfRef.locByRange.map (fun p => makeRange p.2)
        ++ groupParts.flatten
        ++ endParts.flatten
        ++ [makeProjectContains egSelfRef.docs, makeProjectEnd] :=
  claim_c5_emission_order rfl

/-! ## Claim C1: global id uniqueness fails on the code -/

/-- C1: on the state `egSelfRef` — produced by any input in which a
definition range is also recorded as one of its own referencing ranges —
the run emits the id `next:a:0:0` twice: once as the step-2 next edge
from the definition range to its result set, and once more in the step-9
per-referencing-range next-edge loop.  The emitted stream therefore
contains two items sharing an id, contradicting the claimed global
uniqueness invariant (which the repository's own test suite also
asserts: "does not emit items with duplicate IDs"). -/
theorem claim_c1_duplicate_ids :
    ∃ out, ffff egSelfRef "r" "g" = Except.ok out ∧
      ¬ List.Pairwise (fun a b => a.id ≠ b.id) out ∧
      out.countP (fun i => i.id == "next:a:0:0") = 2 :=
  ⟨(ffff egSelfRef "r" "g").toOption.getD [], rfl, by decide, by decide⟩

/-! ## Counting next edges -/

/-- The predicate picking out a next edge with id `next:<d>`. -/
def isNextEdgeFor (d : String) (i : Item) : Bool :=
  decide (i.label = "next" ∧ i.id = "next:" ++ d)

theorem countP_next_core (st : EngineState) (d' : String)
    (refs' : List String) (defLoc : Loc)
    (groups : List (String × List String)) (d : String) :
    (emitDefGroupCore st d' refs' defLoc groups).countP (isNextEdgeFor d) =
      (if d' = d then 1 else 0) + refs'.countP (fun r => r == d) := by
  unfold emitDefGroupCore
  simp only [List.countP_append]
  have hm : ∀ r : String, isNextEdgeFor d (makeNextRef r d') = (r == d) := by
    intro r
    by_cases hr : r = d <;>
      simp [isNextEdgeFor, makeNextRef, strAppend_left_inj, hr]
  have hrefs : (refs'.map (fun r => makeNextRef r d')).countP (isNextEdgeFor d)
      = refs'.countP (fun r => r == d) := by
    rw [List.countP_map]
    exact List.countP_congr (fun r _ => by rw [Function.comp_apply, hm])
  have hgroups : (groups.map (fun gp => makeItemRefReferences d' gp.1 gp.2)).countP
      (isNextEdgeFor d) = 0 := by
    rw [List.countP_map]
    refine List.countP_eq_zero.mpr (fun gp _ => ?_)
    simp [isNextEdgeFor, makeItemRefReferences]
  have hhead : ([makeResultSet d', makeNextDef d'] : List Item).countP
      (isNextEdgeFor d) = if d' = d then 1 else 0 := by
    by_cases hd : d' = d
    · subst hd
      simp [isNextEdgeFor, makeResultSet, makeNextDef, List.countP_cons]
    · simp [isNextEdgeFor, makeResultSet, makeNextDef, List.countP_cons,
        strAppend_left_inj, hd]
  rw [hrefs, hgroups, hhead]
  have h2 : ∀ im : MonikerInfo,
      ([makeImportMonikerV d' im, makeImportMonikerE d',
        makePackageV im.packageInformation,
        makePackageE im.packageInformation ("moniker:import:" ++ d')] :
          List Item).countP (isNextEdgeFor d) = 0 := by
    intro im
    simp [isNextEdgeFor, makeImportMonikerV, makeImportMonikerE, makePackageV,
      makePackageE, List.countP_cons]
  have h3 : ([makeDefinitionResult d', makeTdDefinition d',
      makeItemDefinition d' defLoc] : List Item).countP (isNextEdgeFor d) = 0 := by
    simp [isNextEdgeFor, makeDefinitionResult, makeTdDefinition,
      makeItemDefinition, List.countP_cons]
  have h4 : ∀ hstr : String,
      ([makeHoverV d' hstr, makeTdHover d'] : List Item).countP
        (isNextEdgeFor d) = 0 := by
    intro hstr
    simp [isNextEdgeFor, makeHoverV, makeTdHover, List.countP_cons]
  have h5 : ([makeReferenceResult d', makeTdReferences d'] :
      List Item).countP (isNextEdgeFor d) = 0 := by
    simp [isNextEdgeFor, makeReferenceResult, makeTdReferences,
      List.countP_cons]
  have h6 : ([makeItemRefDefinitions d' defLoc] : List Item).countP
      (isNextEdgeFor d) = 0 := by
    simp [isNextEdgeFor, makeItemRefDefinitions, List.countP_cons]
  have h7 : ∀ em : MonikerInfo,
      ([makeExportMonikerV d' em, makeExportMonikerE d',
        makePackageV em.packageInformation,
        makePackageE em.packageInformation ("moniker:export:" ++ d')] :
          List Item).countP (isNextEdgeFor d) = 0 := by
    intro em
    simp [isNextEdgeFor, makeExportMonikerV, makeExportMonikerE, makePackageV,
      makePackageE, List.countP_cons]
  cases him : lookupA d' st.importMonikerByRange <;>
    cases hex : lookupA d' st.exportMonikerByRange <;>
    cases hh : lookupA d' st.hoverByDef <;>
    simp only [apply_ite (List.countP (isNextEdgeFor d)), h2, h3, h4, h5, h6,
      h7, List.countP_nil, ite_self] <;>
    omega

/-! ## Segment counting helpers -/

theorem countP_docsBegin_zero (p : Item → Bool) (docs : List String)
    (hv : ∀ doc, p (makeDocumentVertex doc) = false)
    (hb : ∀ doc, p (makeDocumentBegin doc) = false) :
    (docs.flatMap emitDocsBegin).countP p = 0 := by
  refine List.countP_eq_zero.mpr ?_
  intro i hi
  rw [List.mem_flatMap] at hi
  obtain ⟨doc, _, hmem⟩ := hi
  simp only [emitDocsBegin, List.mem_cons, List.mem_singleton,
    List.not_mem_nil, or_false] at hmem
  rcases hmem with rfl | rfl
  · simp [hv doc]
  · simp [hb doc]

theorem countP_ranges_zero (p : Item → Bool) (lr : List (String × Loc))
    (h : ∀ loc, p (makeRange loc) = false) :
    (lr.map (fun q => makeRange q.2)).countP p = 0 := by
  rw [List.countP_map]
  exact List.countP_eq_zero.mpr (fun q _ => by simp [h q.2])

theorem countP_docsEnd_zero (p : Item → Bool)
    {rbd : List (String × List String)} {docs : List String}
    {parts : List (List Item)}
    (hf : List.Forall₂ (docEndRel rbd) docs parts)
    (hc : ∀ doc ranges, p (makeContains doc ranges) = false)
    (he : ∀ doc, p (makeDocumentEnd doc) = false) :
    parts.flatten.countP p = 0 := by
  induction hf with
  | nil => simp
  | cons hrel hff ih =>
    obtain ⟨ranges, _, hitems⟩ := hrel
    simp [List.countP_append, hitems, List.countP_cons, hc, he, ih]

theorem countP_groups_sum {st : EngineState} {l : List (String × List String)}
    {parts : List (List Item)} (hf : List.Forall₂ (groupRel st) l parts)
    (p : Item → Bool) (f : String × List String → Nat)
    (hcore : ∀ d refs defLoc groups,
      (emitDefGroupCore st d refs defLoc groups).countP p = f (d, refs)) :
    parts.flatten.countP p = (l.map f).sum := by
  induction hf with
  | nil => simp
  | cons hrel hff ih =>
    obtain ⟨defLoc, groups, _, _, hitems⟩ := hrel
    simp [List.countP_append, hitems, hcore, ih]

theorem sum_single_key {l : List (String × List String)} {d : String}
    {refs : List String}
    (hmem : (d, refs) ∈ l) (hkeys : (l.map Prod.fst).Nodup)
    (hother : ∀ p ∈ l, p.1 ≠ d → d ∉ p.2)
    (hself : d ∈ refs) (hrefs : refs.Nodup) :
    (l.map (fun pr => (if pr.1 = d then 1 else 0) +
      pr.2.countP (fun r => r == d))).sum = 2 := by
  induction l with
  | nil => cases hmem
  | cons p rest ih =>
    rw [List.map_cons, List.sum_cons]
    rw [List.map_cons] at hkeys
    have hk := List.nodup_cons.mp hkeys
    rcases List.mem_cons.mp hmem with heq | hmem'
    · have hp : p = (d, refs) := heq.symm
      subst hp
      have hcount : refs.countP (fun r => r == d) = 1 := by
        have h1 : refs.count d = 1 := List.count_eq_one_of_mem hrefs hself
        exact h1
      have htail : (rest.map (fun pr => (if pr.1 = d then 1 else 0) +
          pr.2.countP (fun r => r == d))).sum = 0 := by
        refine List.sum_eq_zero ?_
        intro x hx
        rw [List.mem_map] at hx
        obtain ⟨q, hq, rfl⟩ := hx
        have hq1 : q.1 ≠ d := by
          intro hqd
          have hq1m : q.1 ∈ List.map Prod.fst rest :=
            List.mem_map_of_mem Prod.fst hq
          exact hk.1 (hqd ▸ hq1m)
        have hq2 : d ∉ q.2 := hother q (List.mem_cons_of_mem _ hq) hq1
        have hq3 : q.2.countP (fun r => r == d) = 0 :=
          List.countP_eq_zero.mpr (fun r hr hb => hq2 ((eq_of_beq hb) ▸ hr))
        rw [if_neg hq1, hq3]
        rfl
      rw [if_pos rfl, hcount, htail]
    · have hp1 : p.1 ≠ d := by
        intro hpd
        have hdm : d ∈ rest.map Prod.fst := by
          rw [List.mem_map]
          exact ⟨(d, refs), hmem', rfl⟩
        exact hk.1 (hpd ▸ hdm)
      have hcount0 : p.2.countP (fun r => r == d) = 0 :=
        List.countP_eq_zero.mpr (fun r hr hb =>
          hother p (List.mem_cons_self _ _) hp1 ((eq_of_beq hb) ▸ hr))
      rw [if_neg hp1, hcount0,
        ih hmem' hk.2 (fun q hq hqd => hother q (List.mem_cons_of_mem _ hq) hqd)]

/-! ## Claim C8: the duplicated next edge for self-referencing definitions -/

/-- C8: when a definition group's reference set contains the definition
range itself, the run emits two items with the identical id
`next:<defRangeId>`: the step-2 next edge from the definition range to
its result set, and the step-9 per-referencing-range next edge for that
same range.  (The hypotheses pin the count at exactly two: the range is
not also referenced from any other group.) -/
theorem claim_c8_duplicate_next_edge {st : EngineState} {r g : String}
    {out : List Item} {d : String} {refs : List String}
    (h : ffff st r g = .ok out)
    (hmem : (d, refs) ∈ st.refsByDef)
    (hkeys : (st.refsByDef.map Prod.fst).Nodup)
    (hself : d ∈ refs) (hrefs : refs.Nodup)
    (hother : ∀ p ∈ st.refsByDef, p.1 ≠ d → d ∉ p.2) :
    out.countP (isNextEdgeFor d) = 2 := by
  obtain ⟨ds, es, h1, h2, hout⟩ := ffff_ok_decomp h
  obtain ⟨gparts, hgf, hgeq⟩ := emitGroups_ok h1
  obtain ⟨eparts, hef, heeq⟩ := emitDocsEndAux_ok h2
  subst hout hgeq heeq
  simp only [List.countP_append]
  have hp3 : ([makeMeta r g, makeProject, makeProjectBegin] :
      List Item).countP (isNextEdgeFor d) = 0 := by
    simp [isNextEdgeFor, makeMeta, makeProject, makeProjectBegin,
      List.countP_cons]
  have hdb := countP_docsBegin_zero (isNextEdgeFor d) st.docs
    (fun doc => by simp [isNextEdgeFor, makeDocumentVertex])
    (fun doc => by simp [isNextEdgeFor, makeDocumentBegin])
  have hrg := countP_ranges_zero (isNextEdgeFor d) st.locByRange
    (fun loc => by simp [isNextEdgeFor, makeRange])
  have hde := countP_docsEnd_zero (isNextEdgeFor d) hef
    (fun doc ranges => by simp [isNextEdgeFor, makeContains])
    (fun doc => by simp [isNextEdgeFor, makeDocumentEnd])
  have hsf : ([makeProjectContains st.docs, makeProjectEnd] :
      List Item).countP (isNextEdgeFor d) = 0 := by
    simp [isNextEdgeFor, makeProjectContains, makeProjectEnd,
      List.countP_cons]
  have hgr := countP_groups_sum hgf (isNextEdgeFor d)
    (fun pr => (if pr.1 = d then 1 else 0) +
      pr.2.countP (fun r => r == d))
    (fun d' refs' defLoc groups => countP_next_core st d' refs' defLoc groups d)
  rw [hp3, hdb, hrg, hde, hsf, hgr,
    sum_single_key hmem hkeys hother hself hrefs]

/-- C8 witness: at the concrete self-referencing state, the id
`next:a:0:0` is emitted exactly twice. -/
theorem claim_c8_witness :
    ((ffff egSelfRef "r" "g").toOption.getD []).countP
      (isNextEdgeFor "a:0:0") = 2 :=
  @claim_c8_duplicate_next_edge egSelfRef "r" "g"
    ((ffff egSelfRef "r" "g").toOption.getD []) "a:0:0" ["a:0:0"] rfl
    (by decide) (by decide) (by decide) (by decide) (by decide)

/-! ## Counting hover items -/

/-- The predicate picking out the hover-result vertex or the
textDocument/hover edge of definition group `d`. -/
def isHoverItemFor (d : String) (i : Item) : Bool :=
  decide ((i.label = "hoverResult" ∧ i.id = "hover:" ++ d) ∨
    (i.label = "textDocument/hover" ∧ i.id = "textDocument/hover:" ++ d))

theorem countP_hover_core (st : EngineState) (d' : String)
    (refs' : List String) (defLoc : Loc)
    (groups : List (String × List String)) (d : String) :
    (emitDefGroupCore st d' refs' defLoc groups).countP (isHoverItemFor d) =
      if d' = d then
        (match lookupA d' st.hoverByDef with
          | some hs => if hs = "" then 0 else 2
          | none => 0)
      else 0 := by
  unfold emitDefGroupCore
  simp only [List.countP_append]
  have hhead : ([makeResultSet d', makeNextDef d'] : List Item).countP
      (isHoverItemFor d) = 0 := by
    simp [isHoverItemFor, makeResultSet, makeNextDef, List.countP_cons]
  have h2 : ∀ im : MonikerInfo,
      ([makeImportMonikerV d' im, makeImportMonikerE d',
        makePackageV im.packageInformation,
        makePackageE im.packageInformation ("moniker:import:" ++ d')] :
          List Item).countP (isHoverItemFor d) = 0 := by
    intro im
    simp [isHoverItemFor, makeImportMonikerV, makeImportMonikerE, makePackageV,
      makePackageE, List.countP_cons]
  have h3 : ([makeDefinitionResult d', makeTdDefinition d',
      makeItemDefinition d' defLoc] : List Item).countP
      (isHoverItemFor d) = 0 := by
    simp [isHoverItemFor, makeDefinitionResult, makeTdDefinition,
      makeItemDefinition, List.countP_cons]
  have hpair : ∀ hs : String,
      ([makeHoverV d' hs, makeTdHover d'] : List Item).countP
        (isHoverItemFor d) = if d' = d then 2 else 0 := by
    intro hs
    by_cases hd : d' = d
    · subst hd
      simp [isHoverItemFor, makeHoverV, makeTdHover, List.countP_cons]
    · simp [isHoverItemFor, makeHoverV, makeTdHover, List.countP_cons,
        strAppend_left_inj, hd]
  have h5 : ([makeReferenceResult d', makeTdReferences d'] :
      List Item).countP (isHoverItemFor d) = 0 := by
    simp [isHoverItemFor, makeReferenceResult, makeTdReferences,
      List.countP_cons]
  have h6 : ([makeItemRefDefinitions d' defLoc] : List Item).countP
      (isHoverItemFor d) = 0 := by
    simp [isHoverItemFor, makeItemRefDefinitions, List.countP_cons]
  have h7 : ∀ em : MonikerInfo,
      ([makeExportMonikerV d' em, makeExportMonikerE d',
        makePackageV em.packageInformation,
        makePackageE em.packageInformation ("moniker:export:" ++ d')] :
          List Item).countP (isHoverItemFor d) = 0 := by
    intro em
    simp [isHoverItemFor, makeExportMonikerV, makeExportMonikerE, makePackageV,
      makePackageE, List.countP_cons]
  have hrefs : (refs'.map (fun r => makeNextRef r d')).countP
      (isHoverItemFor d) = 0 := by
    rw [List.countP_map]
    exact List.countP_eq_zero.mpr (fun r _ => by
      simp [isHoverItemFor, makeNextRef])
  have hgroups : (groups.map (fun gp => makeItemRefReferences d' gp.1 gp.2)).countP
      (isHoverItemFor d) = 0 := by
    rw [List.countP_map]
    exact List.countP_eq_zero.mpr (fun gp _ => by
      simp [isHoverItemFor, makeItemRefReferences])
  cases him : lookupA d' st.hoverByDef <;>
    cases hex : lookupA d' st.exportMonikerByRange <;>
    cases hi : lookupA d' st.importMonikerByRange <;>
    simp only [apply_ite (List.countP (isHoverItemFor d)), hhead, h2, h3,
      hpair, h5, h6, h7, hrefs, hgroups, List.countP_nil, ite_self] <;>
    (try split_ifs) <;> omega

theorem sum_single_key_if {l : List (String × List String)} {d : String}
    {refs : List String} (v : Nat)
    (hmem : (d, refs) ∈ l) (hkeys : (l.map Prod.fst).Nodup) :
    (l.map (fun pr => if pr.1 = d then v else 0)).sum = v := by
  induction l with
  | nil => cases hmem
  | cons p rest ih =>
    rw [List.map_cons, List.sum_cons]
    rw [List.map_cons] at hkeys
    have hk := List.nodup_cons.mp hkeys
    rcases List.mem_cons.mp hmem with heq | hmem'
    · have hp : p = (d, refs) := heq.symm
      subst hp
      have htail : (rest.map (fun pr =>
          if pr.1 = d then v else 0)).sum = 0 := by
        refine List.sum_eq_zero ?_
        intro x hx
        rw [List.mem_map] at hx
        obtain ⟨q, hq, rfl⟩ := hx
        have hq1 : q.1 ≠ d := by
          intro hqd
          have hq1m : q.1 ∈ List.map Prod.fst rest :=
            List.mem_map_of_mem Prod.fst hq
          exact hk.1 (hqd ▸ hq1m)
        rw [if_neg hq1]
      rw [if_pos rfl, htail]
      omega
    · have hp1 : p.1 ≠ d := by
        intro hpd
        have hdm : d ∈ rest.map Prod.fst := by
          rw [List.mem_map]
          exact ⟨(d, refs), hmem', rfl⟩
        exact hk.1 (hpd ▸ hdm)
      rw [if_neg hp1, ih hmem' hk.2]
      omega

/-! ## Claim C10: falsy hover text is treated as absent -/

/-- C10: if the hover text recorded against a definition is the empty
string, the run emits no hover-result vertex and no textDocument/hover
edge for that definition group — JS truthiness makes `""` behave exactly
like absent hover text — and the hover vertex/edge pair is emitted
(exactly once) only for non-empty hover strings. -/
theorem claim_c10_hover_falsy {st : EngineState} {r g : String}
    {out : List Item} {d : String} {refs : List String}
    (h : ffff st r g = .ok out)
    (hmem : (d, refs) ∈ st.refsByDef)
    (hkeys : (st.refsByDef.map Prod.fst).Nodup) :
    (lookupA d st.hoverByDef = some "" →
      out.countP (isHoverItemFor d) = 0) ∧
    (∀ hs, lookupA d st.hoverByDef = some hs → hs ≠ "" →
      out.countP (isHoverItemFor d) = 2) ∧
    (lookupA d st.hoverByDef = none →
      out.countP (isHoverItemFor d) = 0) := by
  obtain ⟨ds, es, h1, h2, hout⟩ := ffff_ok_decomp h
  obtain ⟨gparts, hgf, hgeq⟩ := emitGroups_ok h1
  obtain ⟨eparts, hef, heeq⟩ := emitDocsEndAux_ok h2
  subst hout hgeq heeq
  have hcount : (gparts.flatten.countP (isHoverItemFor d)) =
      (st.refsByDef.map (fun pr => if pr.1 = d then
        (match lookupA d st.hoverByDef with
          | some hs => if hs = "" then 0 else 2
          | none => 0)
        else 0)).sum := by
    rw [countP_groups_sum hgf (isHoverItemFor d)
      (fun pr => if pr.1 = d then
        (match lookupA pr.1 st.hoverByDef with
          | some hs => if hs = "" then 0 else 2
          | none => 0)
        else 0)
      (fun d' refs' defLoc groups => countP_hover_core st d' refs' defLoc groups d)]
    · congr 1
      refine List.map_congr_left ?_
      intro pr _
      by_cases hpd : pr.1 = d
      · rw [hpd]
      · rw [if_neg hpd, if_neg hpd]
  have hsum := @sum_single_key_if st.refsByDef d refs
    (match lookupA d st.hoverByDef with
      | some hs => if hs = "" then 0 else 2
      | none => 0) hmem hkeys
  have hzero : ∀ p : Item → Bool,
      p = isHoverItemFor d →
      ([makeMeta r g, makeProject, makeProjectBegin] :
        List Item).countP (isHoverItemFor d) = 0 := by
    intro _ _
    simp [isHoverItemFor, makeMeta, makeProject, makeProjectBegin,
      List.countP_cons]
  simp only [List.countP_append]
  rw [hzero _ rfl,
    countP_docsBegin_zero (isHoverItemFor d) st.docs
      (fun doc => by simp [isHoverItemFor, makeDocumentVertex])
      (fun doc => by simp [isHoverItemFor, makeDocumentBegin]),
    countP_ranges_zero (isHoverItemFor d) st.locByRange
      (fun loc => by simp [isHoverItemFor, makeRange]),
    countP_docsEnd_zero (isHoverItemFor d) hef
      (fun doc ranges => by simp [isHoverItemFor, makeContains])
      (fun doc => by simp [isHoverItemFor, makeDocumentEnd]),
    show ([makeProjectContains st.docs, makeProjectEnd] :
      List Item).countP (isHoverItemFor d) = 0 from by
      simp [isHoverItemFor, makeProjectContains, makeProjectEnd,
        List.countP_cons],
    hcount, hsum]
  refine ⟨fun hE => by rw [hE]; simp, fun hs hS hne => by rw [hS]; simp [hne],
    fun hN => by rw [hN]; simp⟩

/-- C10 witness: a state whose single definition group carries the empty
hover string emits no hover vertex and no hover edge. -/
def egEmptyHover : EngineState :=
  { docs := ["a"]
    rangesByDoc := [("a", ["a:0:0"])]
    refsByDef := [("a:0:0", ["a:1:2"])]
    hoverByDef := [("a:0:0", "")]
    locByRange := [("a:0:0",
      { uri := "a", start := { line := some 0, character := some 0 },
        stop := { line := some 0, character := some 1 } }),
      ("a:1:2",
      { uri := "a", start := { line := some 1, character := some 2 },
        stop := { line := some 1, character := some 5 } })]
    importMonikerByRange := []
    exportMonikerByRange := [] }

/-- C10 witness: evaluating the claim at `egEmptyHover`. -/
theorem claim_c10_witness :
    ((ffff egEmptyHover "r" "g").toOption.getD []).countP
      (isHoverItemFor "a:0:0") = 0 :=
  (@claim_c10_hover_falsy egEmptyHover "r" "g"
    ((ffff egEmptyHover "r" "g").toOption.getD []) "a:0:0" ["a:1:2"] rfl
    (by decide) (by decide)).1 rfl

/-! ## Counting package-information vertices -/

/-- The predicate picking out a package-information vertex with id
`package:<p>`. -/
def isPackageVertexFor (p : String) (i : Item) : Bool :=
  decide (i.type = ElemType.vertex ∧ i.label = "packageInformation" ∧
    i.id = "package:" ++ p)

theorem countP_package_core (st : EngineState) (d' : String)
    (refs' : List String) (defLoc : Loc)
    (groups : List (String × List String)) (p : String) :
    (emitDefGroupCore st d' refs' defLoc groups).countP
        (isPackageVertexFor p) =
      (match lookupA d' st.importMonikerByRange with
        | some im => if im.packageInformation = p then 1 else 0
        | none => 0) +
      (match lookupA d' st.exportMonikerByRange with
        | some em => if em.packageInformation = p then 1 else 0
        | none => 0) := by
  unfold emitDefGroupCore
  simp only [List.countP_append]
  have hhead : ([makeResultSet d', makeNextDef d'] : List Item).countP
      (isPackageVertexFor p) = 0 := by
    simp [isPackageVertexFor, makeResultSet, makeNextDef, List.countP_cons]
  have h2 : ∀ im : MonikerInfo,
      ([makeImportMonikerV d' im, makeImportMonikerE d',
        makePackageV im.packageInformation,
        makePackageE im.packageInformation ("moniker:import:" ++ d')] :
          List Item).countP (isPackageVertexFor p) =
        if im.packageInformation = p then 1 else 0 := by
    intro im
    by_cases hp : im.packageInformation = p
    · simp [isPackageVertexFor, makeImportMonikerV, makeImportMonikerE,
        makePackageV, makePackageE, List.countP_cons, hp]
    · simp [isPackageVertexFor, makeImportMonikerV, makeImportMonikerE,
        makePackageV, makePackageE, List.countP_cons, strAppend_left_inj, hp]
  have h3 : ([makeDefinitionResult d', makeTdDefinition d',
      makeItemDefinition d' defLoc] : List Item).countP
      (isPackageVertexFor p) = 0 := by
    simp [isPackageVertexFor, makeDefinitionResult, makeTdDefinition,
      makeItemDefinition, List.countP_cons]
  have hpair : ∀ hs : String,
      ([makeHoverV d' hs, makeTdHover d'] : List Item).countP
        (isPackageVertexFor p) = 0 := by
    intro hs
    simp [isPackageVertexFor, makeHoverV, makeTdHover, List.countP_cons]
  have h5 : ([makeReferenceResult d', makeTdReferences d'] :
      List Item).countP (isPackageVertexFor p) = 0 := by
    simp [isPackageVertexFor, makeReferenceResult, makeTdReferences,
      List.countP_cons]
  have h6 : ([makeItemRefDefinitions d' defLoc] : List Item).countP
      (isPackageVertexFor p) = 0 := by
    simp [isPackageVertexFor, makeItemRefDefinitions, List.countP_cons]
  have h7 : ∀ em : MonikerInfo,
      ([makeExportMonikerV d' em, makeExportMonikerE d',
        makePackageV em.packageInformation,
        makePackageE em.packageInformation ("moniker:export:" ++ d')] :
          List Item).countP (isPackageVertexFor p) =
        if em.packageInformation = p then 1 else 0 := by
    intro em
    by_cases hp : em.packageInformation = p
    · simp [isPackageVertexFor, makeExportMonikerV, makeExportMonikerE,
        makePackageV, makePackageE, List.countP_cons, hp]
    · simp [isPackageVertexFor, makeExportMonikerV, makeExportMonikerE,
        makePackageV, makePackageE, List.countP_cons, strAppend_left_inj, hp]
  have hrefs : (refs'.map (fun r => makeNextRef r d')).countP
      (isPackageVertexFor p) = 0 := by
    rw [List.countP_map]
    exact List.countP_eq_zero.mpr (fun r _ => by
      simp [isPackageVertexFor, makeNextRef])
  have hgroups : (groups.map (fun gp =>
      makeItemRefReferences d' gp.1 gp.2)).countP (isPackageVertexFor p) = 0 := by
    rw [List.countP_map]
    exact List.countP_eq_zero.mpr (fun gp _ => by
      simp [isPackageVertexFor, makeItemRefReferences])
  cases him : lookupA d' st.importMonikerByRange <;>
    cases hex : lookupA d' st.exportMonikerByRange <;>
    cases hh : lookupA d' st.hoverByDef <;>
    simp only [apply_ite (List.countP (isPackageVertexFor p)), hhead, h2, h3,
      hpair, h5, h6, h7, hrefs, hgroups, List.countP_nil, ite_self] <;>
    omega

/-! ## Claim C2: duplicated package-information vertices -/

/-- C2: when the two definition groups of a run carry export monikers
whose package identifiers are equal, the engine emits the
package-information vertex keyed `package:<packageId>` once per group,
with no deduplication: the stream contains exactly two
package-information vertices sharing the identical id. -/
theorem claim_c2_package_duplication {st : EngineState} {r g : String}
    {out : List Item} {d1 d2 p m1 m2 : String} {r1 r2 : List String}
    (h : ffff st r g = .ok out)
    (hrbd : st.refsByDef = [(d1, r1), (d2, r2)])
    (hd : d1 ≠ d2)
    (him : st.importMonikerByRange = [])
    (he1 : lookupA d1 st.exportMonikerByRange =
      some { moniker := m1, packageInformation := p })
    (he2 : lookupA d2 st.exportMonikerByRange =
      some { moniker := m2, packageInformation := p }) :
    out.countP (isPackageVertexFor p) = 2 := by
  obtain ⟨ds, es, h1, h2, hout⟩ := ffff_ok_decomp h
  obtain ⟨gparts, hgf, hgeq⟩ := emitGroups_ok h1
  obtain ⟨eparts, hef, heeq⟩ := emitDocsEndAux_ok h2
  subst hout hgeq heeq
  simp only [List.countP_append]
  rw [show ([makeMeta r g, makeProject, makeProjectBegin] :
      List Item).countP (isPackageVertexFor p) = 0 from by
      simp [isPackageVertexFor, makeMeta, makeProject, makeProjectBegin,
        List.countP_cons],
    countP_docsBegin_zero (isPackageVertexFor p) st.docs
      (fun doc => by simp [isPackageVertexFor, makeDocumentVertex])
      (fun doc => by simp [isPackageVertexFor, makeDocumentBegin]),
    countP_ranges_zero (isPackageVertexFor p) st.locByRange
      (fun loc => by simp [isPackageVertexFor, makeRange]),
    countP_docsEnd_zero (isPackageVertexFor p) hef
      (fun doc ranges => by simp [isPackageVertexFor, makeContains])
      (fun doc => by simp [isPackageVertexFor, makeDocumentEnd]),
    show ([makeProjectContains st.docs, makeProjectEnd] :
      List Item).countP (isPackageVertexFor p) = 0 from by
      simp [isPackageVertexFor, makeProjectContains, makeProjectEnd,
        List.countP_cons],
    countP_groups_sum hgf (isPackageVertexFor p)
      (fun pr =>
        (match lookupA pr.1 st.importMonikerByRange with
          | some im => if im.packageInformation = p then 1 else 0
          | none => 0) +
        (match lookupA pr.1 st.exportMonikerByRange with
          | some em => if em.packageInformation = p then 1 else 0
          | none => 0))
      (fun d' refs' defLoc groups =>
        countP_package_core st d' refs' defLoc groups p)]
  rw [hrbd]
  simp [him, lookupA, he1, he2]

/-- A concrete state with two definition groups whose export monikers
reference the same package identifier `pkg`. -/
def egTwoExports : EngineState :=
  { docs := ["a"]
    rangesByDoc := [("a", ["a:0:0", "a:1:0"])]
    refsByDef := [("a:0:0", ["a:0:0"]), ("a:1:0", ["a:1:0"])]
    hoverByDef := []
    locByRange := [("a:0:0",
      { uri := "a", start := { line := some 0, character := some 0 },
        stop := { line := some 0, character := some 1 } }),
      ("a:1:0",
      { uri := "a", start := { line := some 1, character := some 0 },
        stop := { line := some 1, character := some 1 } })]
    importMonikerByRange := []
    exportMonikerByRange := [("a:0:0",
      { moniker := "sym1", packageInformation := "pkg" }),
      ("a:1:0", { moniker := "sym2", packageInformation := "pkg" })] }

/-- C2 witness: at `egTwoExports`, the id `package:pkg` is carried by
exactly two package-information vertices in the stream. -/
theorem claim_c2_witness :
    ((ffff egTwoExports "r" "g").toOption.getD []).countP
      (isPackageVertexFor "pkg") = 2 :=
  @claim_c2_package_duplication egTwoExports "r" "g"
    ((ffff egTwoExports "r" "g").toOption.getD []) "a:0:0" "a:1:0" "pkg"
    "sym1" "sym2" ["a:0:0"] ["a:1:0"] rfl rfl (by decide) rfl rfl rfl

/-! ## A general zero count over one definition group -/

theorem countP_core_zero (st : EngineState) (d : String) (refs : List String)
    (defLoc : Loc) (groups : List (String × List String)) (p : Item → Bool)
    (h1 : p (makeResultSet d) = false)
    (h2 : p (makeNextDef d) = false)
    (h3 : ∀ im, p (makeImportMonikerV d im) = false)
    (h4 : p (makeImportMonikerE d) = false)
    (h5 : ∀ pk, p (makePackageV pk) = false)
    (h6 : ∀ pk mon, p (makePackageE pk mon) = false)
    (h7 : p (makeDefinitionResult d) = false)
    (h8 : p (makeTdDefinition d) = false)
    (h9 : p (makeItemDefinition d defLoc) = false)
    (h10 : ∀ hs, p (makeHoverV d hs) = false)
    (h11 : p (makeTdHover d) = false)
    (h12 : p (makeReferenceResult d) = false)
    (h13 : p (makeTdReferences d) = false)
    (h14 : p (makeItemRefDefinitions d defLoc) = false)
    (h15 : ∀ r', p (makeNextRef r' d) = false)
    (h16 : ∀ u rs, p (makeItemRefReferences d u rs) = false)
    (h17 : ∀ em, p (makeExportMonikerV d em) = false)
    (h18 : p (makeExportMonikerE d) = false) :
    (emitDefGroupCore st d refs defLoc groups).countP p = 0 := by
  unfold emitDefGroupCore
  simp only [List.countP_append]
  have chead : ([makeResultSet d, makeNextDef d] : List Item).countP p = 0 := by
    simp [List.countP_cons, h1, h2]
  have cimp : ∀ im : MonikerInfo,
      ([makeImportMonikerV d im, makeImportMonikerE d,
        makePackageV im.packageInformation,
        makePackageE im.packageInformation ("moniker:import:" ++ d)] :
          List Item).countP p = 0 := by
    intro im
    simp [List.countP_cons, h3, h4, h5, h6]
  have cdef : ([makeDefinitionResult d, makeTdDefinition d,
      makeItemDefinition d defLoc] : List Item).countP p = 0 := by
    simp [List.countP_cons, h7, h8, h9]
  have chov : ∀ hs : String,
      ([makeHoverV d hs, makeTdHover d] : List Item).countP p = 0 := by
    intro hs
    simp [List.countP_cons, h10, h11]
  have cref : ([makeReferenceResult d, makeTdReferences d] :
      List Item).countP p = 0 := by
    simp [List.countP_cons, h12, h13]
  have citm : ([makeItemRefDefinitions d defLoc] : List Item).countP p = 0 := by
    simp [List.countP_cons, h14]
  have cnxt : (refs.map (fun r => makeNextRef r d)).countP p = 0 := by
    rw [List.countP_map]
    exact List.countP_eq_zero.mpr (fun r _ => by simp [h15 r])
  have cgrp : (groups.map (fun gp =>
      makeItemRefReferences d gp.1 gp.2)).countP p = 0 := by
    rw [List.countP_map]
    exact List.countP_eq_zero.mpr (fun gp _ => by simp [h16 gp.1 gp.2])
  have cexp : ∀ em : MonikerInfo,
      ([makeExportMonikerV d em, makeExportMonikerE d,
        makePackageV em.packageInformation,
        makePackageE em.packageInformation ("moniker:export:" ++ d)] :
          List Item).countP p = 0 := by
    intro em
    simp [List.countP_cons, h17, h18, h5, h6]
  cases him : lookupA d st.importMonikerByRange <;>
    cases hex : lookupA d st.exportMonikerByRange <;>
    cases hh : lookupA d st.hoverByDef <;>
    simp only [apply_ite (List.countP p), chead, cimp, cdef, chov, cref, citm,
      cnxt, cgrp, cexp, List.countP_nil, ite_self] <;>
    omega

theorem filterMap_eq_nil_of_countP_zero (f : Item → Option String)
    (l : List Item) (h : l.countP (fun i => (f i).isSome) = 0) :
    l.filterMap f = [] := by
  rw [List.filterMap_eq_nil_iff]
  intro a ha
  have hs := List.countP_eq_zero.mp h a ha
  rw [Bool.not_eq_true] at hs
  cases hfa : f a with
  | none => rfl
  | some v => rw [hfa] at hs; exact absurd hs (by simp)

theorem filterMap_groups_nil {st : EngineState}
    {l : List (String × List String)} {parts : List (List Item)}
    (hf : List.Forall₂ (groupRel st) l parts) (f : Item → Option String)
    (hcore : ∀ d refs defLoc groups,
      (emitDefGroupCore st d refs defLoc groups).filterMap f = []) :
    parts.flatten.filterMap f = [] := by
  induction hf with
  | nil => simp
  | cons hrel hff ih =>
    obtain ⟨defLoc, groups, _, _, hitems⟩ := hrel
    simp [List.filterMap_append, hitems, hcore, ih]

theorem filterMap_groups_map {st : EngineState}
    {l : List (String × List String)} {parts : List (List Item)}
    (hf : List.Forall₂ (groupRel st) l parts) (f : Item → Option String)
    (vf : String × List String → String)
    (hcore : ∀ d refs defLoc groups,
      (emitDefGroupCore st d refs defLoc groups).filterMap f = [vf (d, refs)]) :
    parts.flatten.filterMap f = l.map vf := by
  induction hf with
  | nil => simp
  | cons hrel hff ih =>
    obtain ⟨defLoc, groups, _, _, hitems⟩ := hrel
    simp [List.filterMap_append, hitems, hcore, ih]

theorem filterMap_docsEnd_nil {rbd : List (String × List String)}
    {docs : List String} {parts : List (List Item)}
    (hf : List.Forall₂ (docEndRel rbd) docs parts) (f : Item → Option String)
    (hc : ∀ doc ranges, f (makeContains doc ranges) = none)
    (he : ∀ doc, f (makeDocumentEnd doc) = none) :
    parts.flatten.filterMap f = [] := by
  induction hf with
  | nil => simp
  | cons hrel hff ih =>
    obtain ⟨ranges, _, hitems⟩ := hrel
    simp [List.filterMap_append, hitems, hc, he, ih]

/-! ## Claim C3: iteration order of the derived collections -/

/-- Extract a document vertex id. -/
def docVertexId (i : Item) : Option String :=
  if i.label = "document" then some i.id else none

/-- Extract a range vertex id. -/
def rangeVertexId (i : Item) : Option String :=
  if i.label = "range" then some i.id else none

/-- Extract a result-set vertex id. -/
def resultSetVertexId (i : Item) : Option String :=
  if i.label = "resultSet" then some i.id else none

/-- Strict lexicographic comparison of character lists (the order "sorted
by document name" refers to). -/
def charListLtB : List Char → List Char → Bool
  | [], [] => false
  | [], _ :: _ => true
  | _ :: _, [] => false
  | a :: as, b :: bs =>
    if a < b then true else if b < a then false else charListLtB as bs

theorem filterMap_docVertex_core_nil (st : EngineState) (d : String)
    (refs : List String) (defLoc : Loc)
    (groups : List (String × List String)) :
    (emitDefGroupCore st d refs defLoc groups).filterMap docVertexId = [] :=
  filterMap_eq_nil_of_countP_zero _ _ (countP_core_zero st d refs defLoc groups _
    (by simp [docVertexId, makeResultSet])
    (by simp [docVertexId, makeNextDef])
    (fun im => by simp [docVertexId, makeImportMonikerV])
    (by simp [docVertexId, makeImportMonikerE])
    (fun pk => by simp [docVertexId, makePackageV])
    (fun pk mon => by simp [docVertexId, makePackageE])
    (by simp [docVertexId, makeDefinitionResult])
    (by simp [docVertexId, makeTdDefinition])
    (by simp [docVertexId, makeItemDefinition])
    (fun hs => by simp [docVertexId, makeHoverV])
    (by simp [docVertexId, makeTdHover])
    (by simp [docVertexId, makeReferenceResult])
    (by simp [docVertexId, makeTdReferences])
    (by simp [docVertexId, makeItemRefDefinitions])
    (fun r' => by simp [docVertexId, makeNextRef])
    (fun u rs => by simp [docVertexId, makeItemRefReferences])
    (fun em => by simp [docVertexId, makeExportMonikerV])
    (by simp [docVertexId, makeExportMonikerE]))

theorem filterMap_rangeVertex_core_nil (st : EngineState) (d : String)
    (refs : List String) (defLoc : Loc)
    (groups : List (String × List String)) :
    (emitDefGroupCore st d refs defLoc groups).filterMap rangeVertexId = [] :=
  filterMap_eq_nil_of_countP_zero _ _ (countP_core_zero st d refs defLoc groups _
    (by simp [rangeVertexId, makeResultSet])
    (by simp [rangeVertexId, makeNextDef])
    (fun im => by simp [rangeVertexId, makeImportMonikerV])
    (by simp [rangeVertexId, makeImportMonikerE])
    (fun pk => by simp [rangeVertexId, makePackageV])
    (fun pk mon => by simp [rangeVertexId, makePackageE])
    (by simp [rangeVertexId, makeDefinitionResult])
    (by simp [rangeVertexId, makeTdDefinition])
    (by simp [rangeVertexId, makeItemDefinition])
    (fun hs => by simp [rangeVertexId, makeHoverV])
    (by simp [rangeVertexId, makeTdHover])
    (by simp [rangeVertexId, makeReferenceResult])
    (by simp [rangeVertexId, makeTdReferences])
    (by simp [rangeVertexId, makeItemRefDefinitions])
    (fun r' => by simp [rangeVertexId, makeNextRef])
    (fun u rs => by simp [rangeVertexId, makeItemRefReferences])
    (fun em => by simp [rangeVertexId, makeExportMonikerV])
    (by simp [rangeVertexId, makeExportMonikerE]))

theorem filterMap_resultSet_core (st : EngineState) (d : String)
    (refs : List String) (defLoc : Loc)
    (groups : List (String × List String)) :
    (emitDefGroupCore st d refs defLoc groups).filterMap resultSetVertexId =
      ["resultSet:" ++ d] := by
  unfold emitDefGroupCore
  simp only [List.filterMap_append]
  have chead : ([makeResultSet d, makeNextDef d] : List Item).filterMap
      resultSetVertexId = ["resultSet:" ++ d] := by
    simp [resultSetVertexId, makeResultSet, makeNextDef]
  have cimp : ∀ im : MonikerInfo,
      ([makeImportMonikerV d im, makeImportMonikerE d,
        makePackageV im.packageInformation,
        makePackageE im.packageInformation ("moniker:import:" ++ d)] :
          List Item).filterMap resultSetVertexId = [] := by
    intro im
    simp [resultSetVertexId, makeImportMonikerV, makeImportMonikerE,
      makePackageV, makePackageE]
  have cdef : ([makeDefinitionResult d, makeTdDefinition d,
      makeItemDefinition d defLoc] : List Item).filterMap
      resultSetVertexId = [] := by
    simp [resultSetVertexId, makeDefinitionResult, makeTdDefinition,
      makeItemDefinition]
  have chov : ∀ hs : String,
      ([makeHoverV d hs, makeTdHover d] : List Item).filterMap
        resultSetVertexId = [] := by
    intro hs
    simp [resultSetVertexId, makeHoverV, makeTdHover]
  have cref : ([makeReferenceResult d, makeTdReferences d] :
      List Item).filterMap resultSetVertexId = [] := by
    simp [resultSetVertexId, makeReferenceResult, makeTdReferences]
  have citm : ([makeItemRefDefinitions d defLoc] : List Item).filterMap
      resultSetVertexId = [] := by
    simp [resultSetVertexId, makeItemRefDefinitions]
  have cnxt : (refs.map (fun r => makeNextRef r d)).filterMap
      resultSetVertexId = [] := by
    rw [List.filterMap_map]
    exact List.filterMap_eq_nil_iff.mpr (fun r _ => by
      simp [resultSetVertexId, makeNextRef])
  have cgrp : (groups.map (fun gp =>
      makeItemRefReferences d gp.1 gp.2)).filterMap resultSetVertexId = [] := by
    rw [List.filterMap_map]
    exact List.filterMap_eq_nil_iff.mpr (fun gp _ => by
      simp [resultSetVertexId, makeItemRefReferences])
  have cexp : ∀ em : MonikerInfo,
      ([makeExportMonikerV d em, makeExportMonikerE d,
        makePackageV em.packageInformation,
        makePackageE em.packageInformation ("moniker:export:" ++ d)] :
          List Item).filterMap resultSetVertexId = [] := by
    intro em
    simp [resultSetVertexId, makeExportMonikerV, makeExportMonikerE,
      makePackageV, makePackageE]
  cases him : lookupA d st.importMonikerByRange <;>
    cases hex : lookupA d st.exportMonikerByRange <;>
    cases hh : lookupA d st.hoverByDef <;>
    simp only [apply_ite (List.filterMap resultSetVertexId), chead, cimp, cdef,
      chov, cref, citm, cnxt, cgrp, cexp, List.filterMap_nil, ite_self,
      List.append_nil, List.nil_append]

theorem filterMap_docsBegin_doc (docs : List String) :
    (docs.flatMap emitDocsBegin).filterMap docVertexId =
      docs.map (fun doc => "document:" ++ doc) := by
  induction docs with
  | nil => simp
  | cons doc rest ih =>
    simp [emitDocsBegin, List.filterMap_append, docVertexId,
      makeDocumentVertex, makeDocumentBegin, ih]

theorem filterMap_docsBegin_nil_f (f : Item → Option String)
    (docs : List String)
    (hv : ∀ doc, f (makeDocumentVertex doc) = none)
    (hb : ∀ doc, f (makeDocumentBegin doc) = none) :
    (docs.flatMap emitDocsBegin).filterMap f = [] := by
  induction docs with
  | nil => simp
  | cons doc rest ih =>
    simp [emitDocsBegin, List.filterMap_append, hv, hb, ih]

theorem filterMap_ranges_range (lr : List (String × Loc)) :
    ((lr.map (fun q => makeRange q.2)).filterMap rangeVertexId) =
      lr.map (fun q => stringifyLocation q.2) := by
  induction lr with
  | nil => simp
  | cons q rest ih =>
    simp only [List.map_cons, List.filterMap_cons]
    rw [show rangeVertexId (makeRange q.2) = some (stringifyLocation q.2)
      from by simp [rangeVertexId, makeRange], ih]

theorem filterMap_ranges_nil_f (f : Item → Option String)
    (lr : List (String × Loc)) (h : ∀ loc, f (makeRange loc) = none) :
    (lr.map (fun q => makeRange q.2)).filterMap f = [] := by
  rw [List.filterMap_map]
  exact List.filterMap_eq_nil_iff.mpr (fun q _ => by simp [h q.2])

/-- C3 (amended): the engine consumes the derived collections in their
JavaScript insertion order, not in a sorted order: the document vertices
appear in exactly `docs` order, the range vertices in exactly
`locByRange` insertion order, and the definition-group result sets in
exactly `refsByDef` insertion order. -/
theorem claim_c3_amended {st : EngineState} {r g : String} {out : List Item}
    (h : ffff st r g = .ok out) :
    out.filterMap docVertexId = st.docs.map (fun doc => "document:" ++ doc) ∧
    out.filterMap rangeVertexId =
      st.locByRange.map (fun q => stringifyLocation q.2) ∧
    out.filterMap resultSetVertexId =
      st.refsByDef.map (fun pr => "resultSet:" ++ pr.1) := by
  obtain ⟨ds, es, h1, h2, hout⟩ := ffff_ok_decomp h
  obtain ⟨gparts, hgf, hgeq⟩ := emitGroups_ok h1
  obtain ⟨eparts, hef, heeq⟩ := emitDocsEndAux_ok h2
  subst hout hgeq heeq
  simp only [List.filterMap_append]
  refine ⟨?_, ?_, ?_⟩
  · rw [show ([makeMeta r g, makeProject, makeProjectBegin] :
        List Item).filterMap docVertexId = [] from by
        simp [docVertexId, makeMeta, makeProject, makeProjectBegin],
      filterMap_docsBegin_doc,
      filterMap_ranges_nil_f docVertexId st.locByRange
        (fun loc => by simp [docVertexId, makeRange]),
      filterMap_groups_nil hgf docVertexId
        (fun d refs defLoc groups =>
          filterMap_docVertex_core_nil st d refs defLoc groups),
      filterMap_docsEnd_nil hef docVertexId
        (fun doc ranges => by simp [docVertexId, makeContains])
        (fun doc => by simp [docVertexId, makeDocumentEnd]),
      show ([makeProjectContains st.docs, makeProjectEnd] :
        List Item).filterMap docVertexId = [] from by
        simp [docVertexId, makeProjectContains, makeProjectEnd]]
    simp
  · rw [show ([makeMeta r g, makeProject, makeProjectBegin] :
        List Item).filterMap rangeVertexId = [] from by
        simp [rangeVertexId, makeMeta, makeProject, makeProjectBegin],
      filterMap_docsBegin_nil_f rangeVertexId st.docs
        (fun doc => by simp [rangeVertexId, makeDocumentVertex])
        (fun doc => by simp [rangeVertexId, makeDocumentBegin]),
      filterMap_ranges_range,
      filterMap_groups_nil hgf rangeVertexId
        (fun d refs defLoc groups =>
          filterMap_rangeVertex_core_nil st d refs defLoc groups),
      filterMap_docsEnd_nil hef rangeVertexId
        (fun doc ranges => by simp [rangeVertexId, makeContains])
        (fun doc => by simp [rangeVertexId, makeDocumentEnd]),
      show ([makeProjectContains st.docs, makeProjectEnd] :
        List Item).filterMap rangeVertexId = [] from by
        simp [rangeVertexId, makeProjectContains, makeProjectEnd]]
    simp
  · rw [show ([makeMeta r g, makeProject, makeProjectBegin] :
        List Item).filterMap resultSetVertexId = [] from by
        simp [resultSetVertexId, makeMeta, makeProject, makeProjectBegin],
      filterMap_docsBegin_nil_f resultSetVertexId st.docs
        (fun doc => by simp [resultSetVertexId, makeDocumentVertex])
        (fun doc => by simp [resultSetVertexId, makeDocumentBegin]),
      filterMap_ranges_nil_f resultSetVertexId st.locByRange
        (fun loc => by simp [resultSetVertexId, makeRange]),
      filterMap_groups_map hgf resultSetVertexId
        (fun pr => "resultSet:" ++ pr.1)
        (fun d refs defLoc groups =>
          filterMap_resultSet_core st d refs defLoc groups),
      filterMap_docsEnd_nil hef resultSetVertexId
        (fun doc ranges => by simp [resultSetVertexId, makeContains])
        (fun doc => by simp [resultSetVertexId, makeDocumentEnd]),
      show ([makeProjectContains st.docs, makeProjectEnd] :
        List Item).filterMap resultSetVertexId = [] from by
        simp [resultSetVertexId, makeProjectContains, makeProjectEnd]]
    simp

/-- A state whose documents were inserted in reverse-alphabetical order. -/
def egTwoDocsRev : EngineState :=
  { docs := ["b.c", "a.c"]
    rangesByDoc := [("b.c", []), ("a.c", [])]
    refsByDef := []
    hoverByDef := []
    locByRange := []
    importMonikerByRange := []
    exportMonikerByRange := [] }

/-- C3 counterexample.  At `egTwoDocsRev` the engine emits the document
vertices in insertion order `b.c` before `a.c`, although `a.c` precedes
`b.c` in the by-document-name order the claim asserts; hence the engine
does not iterate the derived document set in sorted order. -/
theorem claim_c3_counterexample :
    ∃ out, ffff egTwoDocsRev "r" "g" = Except.ok out ∧
      out.filterMap docVertexId = ["document:b.c", "document:a.c"] ∧
      charListLtB "a.c".data "b.c".data = true :=
  ⟨(ffff egTwoDocsRev "r" "g").toOption.getD [], rfl, by decide, by decide⟩

/-- C3 witness: the insertion-order characterization at a concrete
state. -/
theorem claim_c3_witness :
    ((ffff egSelfRef "r" "g").toOption.getD []).filterMap docVertexId =
        egSelfRef.docs.map (fun doc => "document:" ++ doc) ∧
      ((ffff egSelfRef "r" "g").toOption.getD []).filterMap rangeVertexId =
        egSelfRef.locByRange.map (fun q => stringifyLocation q.2) ∧
      ((ffff egSelfRef "r" "g").toOption.getD []).filterMap resultSetVertexId =
        egSelfRef.refsByDef.map (fun pr => "resultSet:" ++ pr.1) :=
  @claim_c3_amended egSelfRef "r" "g"
    ((ffff egSelfRef "r" "g").toOption.getD []) rfl

/-! ## Properties of the uri grouping -/

theorem pairUris_forall₂ :
    ∀ {refs : List String} {pairs : List (String × String)},
      pairUris refs = .ok pairs →
      List.Forall₂ (fun r q => ∃ fp, parseFilePositionE r = .ok fp ∧
        q = (fp.uri, r)) refs pairs := by
  intro refs
  induction refs with
  | nil =>
    intro pairs h
    rw [pairUris] at h
    injection h with h
    rw [← h]
    exact .nil
  | cons r rest ih =>
    intro pairs h
    rw [pairUris] at h
    cases hp : parseFilePositionE r with
    | error e => rw [hp] at h; exact absurd h (by simp)
    | ok fp =>
      rw [hp] at h
      cases hr : pairUris rest with
      | error e => rw [hr] at h; exact absurd h (by simp)
      | ok qs =>
        rw [hr] at h
        injection h with h
        rw [← h]
        exact .cons ⟨fp, hp, rfl⟩ (ih hr)

theorem forall₂_map_snd {refs : List String} {pairs : List (String × String)}
    (hf : List.Forall₂ (fun r q => ∃ fp, parseFilePositionE r = .ok fp ∧
      q = (fp.uri, r)) refs pairs) : pairs.map Prod.snd = refs := by
  induction hf with
  | nil => rfl
  | cons hrel hff ih =>
    obtain ⟨fp, _, rfl⟩ := hrel
    simp [ih]

theorem addToGroup_flatten_perm (k x : String)
    (acc : List (String × List String)) :
    ((addToGroup k x acc).map Prod.snd).flatten.Perm
      ((acc.map Prod.snd).flatten ++ [x]) := by
  induction acc with
  | nil => simp [addToGroup]
  | cons q rest ih =>
    obtain ⟨k', xs⟩ := q
    rw [addToGroup]
    by_cases hk : k' = k
    · rw [if_pos hk]
      simp only [List.map_cons, List.flatten_cons]
      rw [show (xs ++ [x]) ++ (rest.map Prod.snd).flatten =
        xs ++ ([x] ++ (rest.map Prod.snd).flatten) from by simp,
        show (xs ++ (rest.map Prod.snd).flatten) ++ [x] =
        xs ++ ((rest.map Prod.snd).flatten ++ [x]) from by simp]
      exact List.Perm.append_left xs List.perm_append_comm
    · rw [if_neg hk]
      simp only [List.map_cons, List.flatten_cons]
      rw [show (xs ++ (rest.map Prod.snd).flatten) ++ [x] =
        xs ++ ((rest.map Prod.snd).flatten ++ [x]) from by simp]
      exact List.Perm.append_left xs ih

theorem groupPairsAux_flatten_perm (pairs : List (String × String)) :
    ∀ acc, ((groupPairsAux acc pairs).map Prod.snd).flatten.Perm
      ((acc.map Prod.snd).flatten ++ pairs.map Prod.snd) := by
  induction pairs with
  | nil => intro acc; simp [groupPairsAux]
  | cons q rest ih =>
    intro acc
    obtain ⟨k, x⟩ := q
    rw [groupPairsAux]
    refine List.Perm.trans (ih (addToGroup k x acc)) ?_
    refine List.Perm.trans
      ((addToGroup_flatten_perm k x acc).append_right (rest.map Prod.snd)) ?_
    rw [show ((acc.map Prod.snd).flatten ++ [x]) ++ rest.map Prod.snd =
      (acc.map Prod.snd).flatten ++ ([x] ++ rest.map Prod.snd) from by simp]
    simp

theorem groupPairs_flatten_perm (pairs : List (String × String)) :
    ((groupPairs pairs).map Prod.snd).flatten.Perm (pairs.map Prod.snd) := by
  have h := groupPairsAux_flatten_perm pairs []
  simpa [groupPairs] using h

theorem addToGroup_pred {P : String → String → Prop} {k x : String}
    {acc : List (String × List String)}
    (hacc : ∀ q ∈ acc, ∀ y ∈ q.2, P q.1 y) (hx : P k x) :
    ∀ q ∈ addToGroup k x acc, ∀ y ∈ q.2, P q.1 y := by
  induction acc with
  | nil =>
    intro q hq y hy
    rw [addToGroup, List.mem_singleton] at hq
    subst hq
    rw [List.mem_singleton] at hy
    subst hy
    exact hx
  | cons p rest ih =>
    obtain ⟨k', xs⟩ := p
    intro q hq y hy
    rw [addToGroup] at hq
    by_cases hk : k' = k
    · rw [if_pos hk] at hq
      rcases List.mem_cons.mp hq with rfl | hq'
      · rcases List.mem_append.mp hy with hy' | hy'
        · exact hacc (k', xs) (List.mem_cons_self _ _) y hy'
        · rw [List.mem_singleton] at hy'
          subst hy'
          rw [show ((k', xs ++ [y]) : String × List String).1 = k from hk]
          exact hx
      · exact hacc q (List.mem_cons_of_mem _ hq') y hy
    · rw [if_neg hk] at hq
      rcases List.mem_cons.mp hq with rfl | hq'
      · exact hacc (k', xs) (List.mem_cons_self _ _) y hy
      · exact ih (fun q2 hq2 => hacc q2 (List.mem_cons_of_mem _ hq2)) q hq' y hy

theorem groupPairsAux_pred {P : String → String → Prop} :
    ∀ {pairs : List (String × String)} {acc : List (String × List String)},
      (∀ q ∈ acc, ∀ y ∈ q.2, P q.1 y) →
      (∀ q ∈ pairs, P q.1 q.2) →
      ∀ q ∈ groupPairsAux acc pairs, ∀ y ∈ q.2, P q.1 y := by
  intro pairs
  induction pairs with
  | nil =>
    intro acc hacc _ q hq
    rw [groupPairsAux] at hq
    exact hacc q hq
  | cons pr rest ih =>
    intro acc hacc hpairs q hq
    obtain ⟨k, x⟩ := pr
    rw [groupPairsAux] at hq
    exact ih (addToGroup_pred hacc (hpairs (k, x) (List.mem_cons_self _ _)))
      (fun q2 hq2 => hpairs q2 (List.mem_cons_of_mem _ hq2)) q hq

theorem groupPairs_pred {P : String → String → Prop}
    {pairs : List (String × String)} (hpairs : ∀ q ∈ pairs, P q.1 q.2) :
    ∀ q ∈ groupPairs pairs, ∀ y ∈ q.2, P q.1 y :=
  groupPairsAux_pred (by intro q hq; cases hq) hpairs

theorem addToGroup_keys (k x : String) (acc : List (String × List String)) :
    (addToGroup k x acc).map Prod.fst =
      if k ∈ acc.map Prod.fst then acc.map Prod.fst
      else acc.map Prod.fst ++ [k] := by
  induction acc with
  | nil => simp [addToGroup]
  | cons p rest ih =>
    obtain ⟨k', xs⟩ := p
    rw [addToGroup]
    by_cases hk : k' = k
    · rw [if_pos hk, if_pos (by simp [hk])]
      rfl
    · rw [if_neg hk]
      simp only [List.map_cons, ih]
      by_cases hmem : k ∈ rest.map Prod.fst
      · rw [if_pos hmem, if_pos (List.mem_cons_of_mem _ hmem)]
      · rw [if_neg hmem, if_neg (by
          rw [List.mem_cons]
          push_neg
          exact ⟨fun hc => hk hc.symm, hmem⟩)]
        rfl

theorem addToGroup_keys_nodup (k x : String)
    (acc : List (String × List String)) (h : (acc.map Prod.fst).Nodup) :
    ((addToGroup k x acc).map Prod.fst).Nodup := by
  rw [addToGroup_keys]
  split
  · exact h
  · next hmem =>
    refine List.Nodup.append h (List.nodup_singleton k) ?_
    rw [List.disjoint_singleton]
    exact hmem

theorem groupPairsAux_keys_nodup :
    ∀ {pairs : List (String × String)} {acc : List (String × List String)},
      (acc.map Prod.fst).Nodup →
      ((groupPairsAux acc pairs).map Prod.fst).Nodup := by
  intro pairs
  induction pairs with
  | nil =>
    intro acc hacc
    rw [groupPairsAux]
    exact hacc
  | cons pr rest ih =>
    intro acc hacc
    obtain ⟨k, x⟩ := pr
    rw [groupPairsAux]
    exact ih (addToGroup_keys_nodup k x acc hacc)

theorem groupPairs_keys_nodup (pairs : List (String × String)) :
    ((groupPairs pairs).map Prod.fst).Nodup :=
  groupPairsAux_keys_nodup (by simp)

/-! ## Claim C7: the per-document reference item edges partition R -/

/-- The predicate picking out the per-document `references` item edges of
definition group `d`. -/
def isRefItemEdgeFor (d : String) (i : Item) : Bool :=
  decide (i.property = some "references" ∧
    i.outV = some ("reference:" ++ d))

theorem filter_eq_nil_of_countP_zero (p : Item → Bool) (l : List Item)
    (h : l.countP p = 0) : l.filter p = [] :=
  List.filter_eq_nil_iff.mpr (List.countP_eq_zero.mp h)

theorem forall₂_mem_right {α β : Type} {R : α → β → Prop} {l1 : List α}
    {l2 : List β} {b : β} (hf : List.Forall₂ R l1 l2) (hb : b ∈ l2) :
    ∃ a ∈ l1, R a b := by
  induction hf with
  | nil => cases hb
  | cons hrel hff ih =>
    rcases List.mem_cons.mp hb with rfl | hb'
    · exact ⟨_, List.mem_cons_self _ _, hrel⟩
    · obtain ⟨a, ha, har⟩ := ih hb'
      exact ⟨a, List.mem_cons_of_mem _ ha, har⟩

theorem filter_refItem_core (st : EngineState) (d' : String)
    (refs' : List String) (defLoc : Loc)
    (groups : List (String × List String)) (d : String) :
    (emitDefGroupCore st d' refs' defLoc groups).filter (isRefItemEdgeFor d) =
      if d' = d then groups.map (fun gp => makeItemRefReferences d' gp.1 gp.2)
      else [] := by
  unfold emitDefGroupCore
  simp only [List.filter_append]
  have chead : ([makeResultSet d', makeNextDef d'] : List Item).filter
      (isRefItemEdgeFor d) = [] := by
    simp [isRefItemEdgeFor, makeResultSet, makeNextDef, List.filter_cons]
  have cimp : ∀ im : MonikerInfo,
      ([makeImportMonikerV d' im, makeImportMonikerE d',
        makePackageV im.packageInformation,
        makePackageE im.packageInformation ("moniker:import:" ++ d')] :
          List Item).filter (isRefItemEdgeFor d) = [] := by
    intro im
    simp [isRefItemEdgeFor, makeImportMonikerV, makeImportMonikerE,
      makePackageV, makePackageE, List.filter_cons]
  have cdef : ([makeDefinitionResult d', makeTdDefinition d',
      makeItemDefinition d' defLoc] : List Item).filter
      (isRefItemEdgeFor d) = [] := by
    simp [isRefItemEdgeFor, makeDefinitionResult, makeTdDefinition,
      makeItemDefinition, List.filter_cons]
  have chov : ∀ hs : String,
      ([makeHoverV d' hs, makeTdHover d'] : List Item).filter
        (isRefItemEdgeFor d) = [] := by
    intro hs
    simp [isRefItemEdgeFor, makeHoverV, makeTdHover, List.filter_cons]
  have cref : ([makeReferenceResult d', makeTdReferences d'] :
      List Item).filter (isRefItemEdgeFor d) = [] := by
    simp [isRefItemEdgeFor, makeReferenceResult, makeTdReferences,
      List.filter_cons]
  have citm : ([makeItemRefDefinitions d' defLoc] : List Item).filter
      (isRefItemEdgeFor d) = [] := by
    simp [isRefItemEdgeFor, makeItemRefDefinitions, List.filter_cons]
  have cnxt : (refs'.map (fun r => makeNextRef r d')).filter
      (isRefItemEdgeFor d) = [] := by
    refine List.filter_eq_nil_iff.mpr ?_
    intro i hi
    rw [List.mem_map] at hi
    obtain ⟨r, _, rfl⟩ := hi
    simp [isRefItemEdgeFor, makeNextRef]
  have cexp : ∀ em : MonikerInfo,
      ([makeExportMonikerV d' em, makeExportMonikerE d',
        makePackageV em.packageInformation,
        makePackageE em.packageInformation ("moniker:export:" ++ d')] :
          List Item).filter (isRefItemEdgeFor d) = [] := by
    intro em
    simp [isRefItemEdgeFor, makeExportMonikerV, makeExportMonikerE,
      makePackageV, makePackageE, List.filter_cons]
  have cgrp : (groups.map (fun gp =>
      makeItemRefReferences d' gp.1 gp.2)).filter (isRefItemEdgeFor d) =
      if d' = d then groups.map (fun gp => makeItemRefReferences d' gp.1 gp.2)
      else [] := by
    by_cases hd : d' = d
    · rw [if_pos hd]
      refine List.filter_eq_self.mpr ?_
      intro i hi
      rw [List.mem_map] at hi
      obtain ⟨gp, _, rfl⟩ := hi
      simp [isRefItemEdgeFor, makeItemRefReferences, hd]
    · rw [if_neg hd]
      refine List.filter_eq_nil_iff.mpr ?_
      intro i hi
      rw [List.mem_map] at hi
      obtain ⟨gp, _, rfl⟩ := hi
      simp [isRefItemEdgeFor, makeItemRefReferences, strAppend_left_inj, hd]
  cases him : lookupA d' st.importMonikerByRange <;>
    cases hex : lookupA d' st.exportMonikerByRange <;>
    cases hh : lookupA d' st.hoverByDef <;>
    simp only [apply_ite (List.filter (isRefItemEdgeFor d)), chead, cimp,
      cdef, chov, cref, citm, cnxt, cexp, cgrp, List.filter_nil, ite_self,
      List.append_nil, List.nil_append]

theorem filter_groups_not_key {st : EngineState}
    {l : List (String × List String)} {parts : List (List Item)}
    (hf : List.Forall₂ (groupRel st) l parts) (d : String)
    (hnd : d ∉ l.map Prod.fst) :
    parts.flatten.filter (isRefItemEdgeFor d) = [] := by
  induction hf with
  | nil => simp
  | cons hrel hff ih =>
    rename_i p items l' parts'
    obtain ⟨defLoc, groups, _, _, hitems⟩ := hrel
    rw [List.map_cons, List.mem_cons] at hnd
    push_neg at hnd
    have hne : ¬p.1 = d := fun hc => hnd.1 hc.symm
    rw [List.flatten_cons, List.filter_append, hitems, filter_refItem_core,
      if_neg hne, ih hnd.2]
    rfl

theorem filter_groups_single {st : EngineState}
    {l : List (String × List String)} {parts : List (List Item)}
    (hf : List.Forall₂ (groupRel st) l parts) {d : String}
    {refs : List String} (hmem : (d, refs) ∈ l)
    (hkeys : (l.map Prod.fst).Nodup) :
    ∃ groupsOf, refsGroupedByUri refs = .ok groupsOf ∧
      parts.flatten.filter (isRefItemEdgeFor d) =
        groupsOf.map (fun gp => makeItemRefReferences d gp.1 gp.2) := by
  induction hf with
  | nil => cases hmem
  | cons hrel hff ih =>
    rename_i p items l' parts'
    rw [List.map_cons] at hkeys
    have hk := List.nodup_cons.mp hkeys
    obtain ⟨defLoc, groups, hloc, hgrp, hitems⟩ := hrel
    rcases List.mem_cons.mp hmem with heq | hmem'
    · have hp : p = (d, refs) := heq.symm
      subst hp
      have hnd : d ∉ l'.map Prod.fst := hk.1
      refine ⟨groups, hgrp, ?_⟩
      rw [List.flatten_cons, List.filter_append, hitems, filter_refItem_core,
        filter_groups_not_key hff d hnd]
      simp
    · have hp1 : p.1 ≠ d := by
        intro hpd
        have hdm : d ∈ l'.map Prod.fst := by
          rw [List.mem_map]
          exact ⟨(d, refs), hmem', rfl⟩
        exact hk.1 (hpd ▸ hdm)
      obtain ⟨groupsOf, hgo, hflt⟩ := ih hmem' hk.2
      refine ⟨groupsOf, hgo, ?_⟩
      rw [List.flatten_cons, List.filter_append, hitems, filter_refItem_core,
        if_neg hp1, hflt]
      rfl

/-- C7: for every definition group with reference set R, the
per-document `references` item edges emitted for that group partition R:
the concatenation of the edges' `inVs` lists is a permutation of R (the
union equals R exactly), the lists are pairwise disjoint, and every such
edge is an item edge tagged `references` and tagged with the owning
document of each range it carries. -/
theorem claim_c7_reference_partition {st : EngineState} {r g : String}
    {out : List Item} {d : String} {refs : List String}
    (h : ffff st r g = .ok out)
    (hmem : (d, refs) ∈ st.refsByDef)
    (hkeys : (st.refsByDef.map Prod.fst).Nodup) :
    (((out.filter (isRefItemEdgeFor d)).map
        (fun e => e.inVs.getD [])).flatten).Perm refs ∧
    List.Pairwise (fun e1 e2 => ∀ x ∈ e1.inVs.getD [], x ∉ e2.inVs.getD [])
      (out.filter (isRefItemEdgeFor d)) ∧
    ∀ e ∈ out.filter (isRefItemEdgeFor d),
      e.type = ElemType.edge ∧ e.label = "item" ∧
      e.property = some "references" ∧
      e.outV = some ("reference:" ++ d) ∧
      ∃ uri, e.document = some ("document:" ++ uri) ∧
        ∀ x ∈ e.inVs.getD [], ∃ fp, parseFilePositionE x = .ok fp ∧
          fp.uri = uri := by
  obtain ⟨ds, es, h1, h2, hout⟩ := ffff_ok_decomp h
  obtain ⟨gparts, hgf, hgeq⟩ := emitGroups_ok h1
  obtain ⟨eparts, hef, heeq⟩ := emitDocsEndAux_ok h2
  subst hout hgeq heeq
  have hp3 : ([makeMeta r g, makeProject, makeProjectBegin] :
      List Item).filter (isRefItemEdgeFor d) = [] := by
    simp [isRefItemEdgeFor, makeMeta, makeProject, makeProjectBegin,
      List.filter_cons]
  have hdb : (st.docs.flatMap emitDocsBegin).filter (isRefItemEdgeFor d) = [] :=
    filter_eq_nil_of_countP_zero _ _ (countP_docsBegin_zero _ st.docs
      (fun doc => by simp [isRefItemEdgeFor, makeDocumentVertex])
      (fun doc => by simp [isRefItemEdgeFor, makeDocumentBegin]))
  have hrg : (st.locByRange.map (fun p => makeRange p.2)).filter
      (isRefItemEdgeFor d) = [] :=
    filter_eq_nil_of_countP_zero _ _ (countP_ranges_zero _ st.locByRange
      (fun loc => by simp [isRefItemEdgeFor, makeRange]))
  have hde : eparts.flatten.filter (isRefItemEdgeFor d) = [] :=
    filter_eq_nil_of_countP_zero _ _ (countP_docsEnd_zero _ hef
      (fun doc ranges => by simp [isRefItemEdgeFor, makeContains])
      (fun doc => by simp [isRefItemEdgeFor, makeDocumentEnd]))
  have hsf : ([makeProjectContains st.docs, makeProjectEnd] :
      List Item).filter (isRefItemEdgeFor d) = [] := by
    simp [isRefItemEdgeFor, makeProjectContains, makeProjectEnd,
      List.filter_cons]
  obtain ⟨groupsOf, hgo, hgfl⟩ := filter_groups_single hgf hmem hkeys
  have hfil : ([makeMeta r g, makeProject, makeProjectBegin]
        ++ st.docs.flatMap emitDocsBegin
        ++ st.locByRange.map (fun p => makeRange p.2)
        ++ gparts.flatten
        ++ eparts.flatten
        ++ [makeProjectContains st.docs, makeProjectEnd]).filter
      (isRefItemEdgeFor d) =
      groupsOf.map (fun gp => makeItemRefReferences d gp.1 gp.2) := by
    simp only [List.filter_append, hp3, hdb, hrg, hgfl, hde, hsf,
      List.nil_append, List.append_nil]
  rw [hfil]
  unfold refsGroupedByUri at hgo
  cases hup : pairUris refs with
  | error e => rw [hup] at hgo; exact absurd hgo (by simp)
  | ok pairs =>
    rw [hup] at hgo
    injection hgo with hgo
    subst hgo
    have hfa := pairUris_forall₂ hup
    have hsnd : pairs.map Prod.snd = refs := forall₂_map_snd hfa
    have hP : ∀ q ∈ groupPairs pairs, ∀ y ∈ q.2,
        ∃ fp, parseFilePositionE y = .ok fp ∧ fp.uri = q.1 := by
      refine groupPairs_pred
        (P := fun k y => ∃ fp, parseFilePositionE y = .ok fp ∧ fp.uri = k) ?_
      intro q hq
      obtain ⟨a, ha, fp, hpa, hq2⟩ := forall₂_mem_right hfa hq
      subst hq2
      exact ⟨fp, hpa, rfl⟩
    refine ⟨?_, ?_, ?_⟩
    · have hmm : ((groupPairs pairs).map
          (fun gp => makeItemRefReferences d gp.1 gp.2)).map
          (fun e => e.inVs.getD []) = (groupPairs pairs).map Prod.snd := by
        simp [makeItemRefReferences]
      rw [hmm, ← hsnd]
      exact groupPairs_flatten_perm pairs
    · rw [List.pairwise_map]
      have hnd : List.Pairwise (fun a b => a ≠ b)
          ((groupPairs pairs).map Prod.fst) := groupPairs_keys_nodup pairs
      have hpw : List.Pairwise (fun g1 g2 => g1.1 ≠ g2.1)
          (groupPairs pairs) := List.pairwise_map.mp hnd
      refine List.Pairwise.imp_of_mem ?_ hpw
      intro g1 g2 hm1 hm2 hne x hx1 hx2
      rw [show (makeItemRefReferences d g1.1 g1.2).inVs.getD [] = g1.2
        from by simp [makeItemRefReferences]] at hx1
      rw [show (makeItemRefReferences d g2.1 g2.2).inVs.getD [] = g2.2
        from by simp [makeItemRefReferences]] at hx2
      obtain ⟨fp1, hp1, hu1⟩ := hP g1 hm1 x hx1
      obtain ⟨fp2, hp2, hu2⟩ := hP g2 hm2 x hx2
      rw [hp1] at hp2
      injection hp2 with hp2
      exact hne (by rw [← hu1, ← hu2, hp2])
    · intro e he
      rw [List.mem_map] at he
      obtain ⟨gp, hgp, rfl⟩ := he
      refine ⟨rfl, rfl, rfl, rfl, gp.1, rfl, ?_⟩
      intro x hx
      rw [show (makeItemRefReferences d gp.1 gp.2).inVs.getD [] = gp.2
        from by simp [makeItemRefReferences]] at hx
      exact hP gp hgp x hx

/-- C7 witness: the partition property at the concrete state
`egSelfRef`. -/
theorem claim_c7_witness :
    ((((ffff egSelfRef "r" "g").toOption.getD []).filter
        (isRefItemEdgeFor "a:0:0")).map
        (fun e => e.inVs.getD [])).flatten.Perm ["a:0:0"] ∧
    List.Pairwise (fun e1 e2 => ∀ x ∈ e1.inVs.getD [], x ∉ e2.inVs.getD [])
      (((ffff egSelfRef "r" "g").toOption.getD []).filter
        (isRefItemEdgeFor "a:0:0")) ∧
    ∀ e ∈ ((ffff egSelfRef "r" "g").toOption.getD []).filter
        (isRefItemEdgeFor "a:0:0"),
      e.type = ElemType.edge ∧ e.label = "item" ∧
      e.property = some "references" ∧
      e.outV = some ("reference:" ++ "a:0:0") ∧
      ∃ uri, e.document = some ("document:" ++ uri) ∧
        ∀ x ∈ e.inVs.getD [], ∃ fp, parseFilePositionE x = .ok fp ∧
          fp.uri = uri :=
  @claim_c7_reference_partition egSelfRef "r" "g"
    ((ffff egSelfRef "r" "g").toOption.getD []) "a:0:0" ["a:0:0"] rfl
    (by decide) (by decide)

/-! ## Claim C6: closure of range endpoints -/

/-- The range identities an edge uses as endpoints: the source of a next
edge, the targets of an item edge, and the targets of a
document-containment edge (the project-containment edge targets
documents, not ranges). -/
def edgeRangeEndpoints (i : Item) : List String :=
  if i.type = ElemType.edge then
    if i.label = "next" then [i.outV.getD ""]
    else if i.label = "item" then i.inVs.getD []
    else if i.label = "contains" ∧ i.outV ≠ some "project" then i.inVs.getD []
    else []
  else []

/-- The predicate picking out a range vertex with id `rid`. -/
def isRangeVertexWithId (rid : String) (i : Item) : Bool :=
  decide (i.type = ElemType.vertex ∧ i.label = "range" ∧ i.id = rid)

theorem str_append_ne {p a q : String} {c c' : Char}
    (hp : p.data.head? = some c) (hq : q.data.head? = some c')
    (hne : c ≠ c') : p ++ a ≠ q := by
  intro he
  have hd := congrArg String.data he
  rw [String.data_append] at hd
  cases hpd : p.data with
  | nil => rw [hpd] at hp; exact absurd hp (by simp)
  | cons c0 t =>
    rw [hpd] at hp
    simp only [List.head?_cons, Option.some.injEq] at hp
    subst hp
    rw [hpd] at hd
    have hqh : q.data.head? = some c0 := by
      rw [← hd]
      rfl
    rw [hq] at hqh
    injection hqh with hqh
    exact hne hqh.symm

theorem endpoints_makeContains (doc : String) (ranges : List String) :
    edgeRangeEndpoints (makeContains doc ranges) = ranges := by
  have hne : ("document:" ++ doc) ≠ "project" :=
    @str_append_ne "document:" doc "project" 'd' 'p' rfl rfl (by decide)
  simp [edgeRangeEndpoints, makeContains, hne]

theorem endpoints_makeProjectContains (docs : List String) :
    edgeRangeEndpoints (makeProjectContains docs) = [] := by
  simp [edgeRangeEndpoints, makeProjectContains]

theorem docs_flatMap_endpoints (docs : List String) :
    ∀ i ∈ docs.flatMap emitDocsBegin, edgeRangeEndpoints i = [] := by
  intro i hi
  rw [List.mem_flatMap] at hi
  obtain ⟨doc, _, hmem⟩ := hi
  simp only [emitDocsBegin, List.mem_cons, List.not_mem_nil, or_false]
    at hmem
  rcases hmem with rfl | rfl
  · simp [edgeRangeEndpoints, makeDocumentVertex]
  · simp [edgeRangeEndpoints, makeDocumentBegin]

theorem ranges_map_endpoints (lr : List (String × Loc)) :
    ∀ i ∈ lr.map (fun q => makeRange q.2), edgeRangeEndpoints i = [] := by
  intro i hi
  rw [List.mem_map] at hi
  obtain ⟨q, _, rfl⟩ := hi
  simp [edgeRangeEndpoints, makeRange]

theorem core_endpoints (st : EngineState) (d : String) (refs : List String)
    (defLoc : Loc) (groups : List (String × List String))
    (hgr : ∀ gp ∈ groups, ∀ x ∈ gp.2, x ∈ refs) :
    ∀ i ∈ emitDefGroupCore st d refs defLoc groups,
      ∀ x ∈ edgeRangeEndpoints i, x = d ∨ x ∈ refs := by
  unfold emitDefGroupCore
  intro i hi
  simp only [List.mem_append] at hi
  rcases hi with (((((((h | h) | h) | h) | h) | h) | h) | h)
  · simp only [List.mem_cons, List.not_mem_nil, or_false] at h
    rcases h with rfl | rfl
    · intro x hx
      rw [show edgeRangeEndpoints (makeResultSet d) = [] from by
        simp [edgeRangeEndpoints, makeResultSet]] at hx
      cases hx
    · intro x hx
      rw [show edgeRangeEndpoints (makeNextDef d) = [d] from by
        simp [edgeRangeEndpoints, makeNextDef]] at hx
      rw [List.mem_singleton] at hx
      exact .inl hx
  · cases him : lookupA d st.importMonikerByRange <;> rw [him] at h
    · simp only [List.mem_cons, List.not_mem_nil, or_false] at h
      rcases h with rfl | rfl | rfl
      · intro x hx
        rw [show edgeRangeEndpoints (makeDefinitionResult d) = [] from by
          simp [edgeRangeEndpoints, makeDefinitionResult]] at hx
        cases hx
      · intro x hx
        rw [show edgeRangeEndpoints (makeTdDefinition d) = [] from by
          simp [edgeRangeEndpoints, makeTdDefinition]] at hx
        cases hx
      · intro x hx
        rw [show edgeRangeEndpoints (makeItemDefinition d defLoc) = [d]
          from by simp [edgeRangeEndpoints, makeItemDefinition]] at hx
        rw [List.mem_singleton] at hx
        exact .inl hx
    · rename_i im
      simp only [List.mem_cons, List.not_mem_nil, or_false] at h
      rcases h with rfl | rfl | rfl | rfl
      · intro x hx
        rw [show edgeRangeEndpoints (makeImportMonikerV d im) = [] from by
          simp [edgeRangeEndpoints, makeImportMonikerV]] at hx
        cases hx
      · intro x hx
        rw [show edgeRangeEndpoints (makeImportMonikerE d) = [] from by
          simp [edgeRangeEndpoints, makeImportMonikerE]] at hx
        cases hx
      · intro x hx
        rw [show edgeRangeEndpoints (makePackageV im.packageInformation) = []
          from by simp [edgeRangeEndpoints, makePackageV]] at hx
        cases hx
      · intro x hx
        rw [show edgeRangeEndpoints (makePackageE im.packageInformation
          ("moniker:import:" ++ d)) = [] from by
          simp [edgeRangeEndpoints, makePackageE]] at hx
        cases hx
  · cases hh : lookupA d st.hoverByDef <;> rw [hh] at h
    · simp at h
    · rename_i hs
      by_cases hemp : hs = ""
      · simp [hemp] at h
      · rw [show (match some hs with
            | some hstr => if hstr = "" then ([] : List Item)
              else [makeHoverV d hstr, makeTdHover d]
            | none => []) =
            if hs = "" then [] else [makeHoverV d hs, makeTdHover d]
            from rfl, if_neg hemp] at h
        simp only [List.mem_cons, List.not_mem_nil, or_false] at h
        rcases h with rfl | rfl
        · intro x hx
          rw [show edgeRangeEndpoints (makeHoverV d hs) = [] from by
            simp [edgeRangeEndpoints, makeHoverV]] at hx
          cases hx
        · intro x hx
          rw [show edgeRangeEndpoints (makeTdHover d) = [] from by
            simp [edgeRangeEndpoints, makeTdHover]] at hx
          cases hx
  · simp only [List.mem_cons, List.not_mem_nil, or_false] at h
    rcases h with rfl | rfl
    · intro x hx
      rw [show edgeRangeEndpoints (makeReferenceResult d) = [] from by
        simp [edgeRangeEndpoints, makeReferenceResult]] at hx
      cases hx
    · intro x hx
      rw [show edgeRangeEndpoints (makeTdReferences d) = [] from by
        simp [edgeRangeEndpoints, makeTdReferences]] at hx
      cases hx
  · cases him : lookupA d st.importMonikerByRange <;> rw [him] at h
    · simp only [List.mem_singleton] at h
      subst h
      intro x hx
      rw [show edgeRangeEndpoints (makeItemRefDefinitions d defLoc) = [d]
        from by simp [edgeRangeEndpoints, makeItemRefDefinitions]] at hx
      rw [List.mem_singleton] at hx
      exact .inl hx
    · simp at h
  · rw [List.mem_map] at h
    obtain ⟨rr, hrr, rfl⟩ := h
    intro x hx
    rw [show edgeRangeEndpoints (makeNextRef rr d) = [rr] from by
      simp [edgeRangeEndpoints, makeNextRef]] at hx
    rw [List.mem_singleton] at hx
    subst hx
    exact .inr hrr
  · rw [List.mem_map] at h
    obtain ⟨gp, hgp, rfl⟩ := h
    intro x hx
    rw [show edgeRangeEndpoints (makeItemRefReferences d gp.1 gp.2) = gp.2
      from by simp [edgeRangeEndpoints, makeItemRefReferences]] at hx
    exact .inr (hgr gp hgp x hx)
  · cases hex : lookupA d st.exportMonikerByRange <;> rw [hex] at h
    · simp at h
    · rename_i em
      simp only [List.mem_cons, List.not_mem_nil, or_false] at h
      rcases h with rfl | rfl | rfl | rfl
      · intro x hx
        rw [show edgeRangeEndpoints (makeExportMonikerV d em) = [] from by
          simp [edgeRangeEndpoints, makeExportMonikerV]] at hx
        cases hx
      · intro x hx
        rw [show edgeRangeEndpoints (makeExportMonikerE d) = [] from by
          simp [edgeRangeEndpoints, makeExportMonikerE]] at hx
        cases hx
      · intro x hx
        rw [show edgeRangeEndpoints (makePackageV em.packageInformation) = []
          from by simp [edgeRangeEndpoints, makePackageV]] at hx
        cases hx
      · intro x hx
        rw [show edgeRangeEndpoints (makePackageE em.packageInformation
          ("moniker:export:" ++ d)) = [] from by
          simp [edgeRangeEndpoints, makePackageE]] at hx
        cases hx

theorem refsGroupedByUri_elem_sub {refs : List String}
    {groups : List (String × List String)}
    (h : refsGroupedByUri refs = .ok groups) :
    ∀ gp ∈ groups, ∀ x ∈ gp.2, x ∈ refs := by
  unfold refsGroupedByUri at h
  cases hup : pairUris refs <;> rw [hup] at h
  · exact absurd h (by simp)
  · injection h with h
    subst h
    rename_i pairs
    have hfa := pairUris_forall₂ hup
    have hsnd := forall₂_map_snd hfa
    refine groupPairs_pred (P := fun k y => y ∈ refs) ?_
    intro q hq
    rw [← hsnd]
    exact List.mem_map_of_mem Prod.snd hq

theorem groups_endpoints {st : EngineState} {l : List (String × List String)}
    {parts : List (List Item)} (hf : List.Forall₂ (groupRel st) l parts)
    (keys : List String)
    (hdefs : ∀ pr ∈ l, pr.1 ∈ keys ∧ ∀ rr ∈ pr.2, rr ∈ keys) :
    ∀ i ∈ parts.flatten, ∀ x ∈ edgeRangeEndpoints i, x ∈ keys := by
  induction hf with
  | nil => intro i hi; simp at hi
  | cons hrel hff ih =>
    rename_i p items l' parts'
    obtain ⟨defLoc, groups, hlk, hgo, hitems⟩ := hrel
    intro i hi
    rw [List.flatten_cons, List.mem_append] at hi
    rcases hi with hi | hi
    · rw [hitems] at hi
      intro x hx
      rcases core_endpoints st p.1 p.2 defLoc groups
          (refsGroupedByUri_elem_sub hgo) i hi x hx with heq | hmm
      · subst heq
        exact (hdefs p (List.mem_cons_self _ _)).1
      · exact (hdefs p (List.mem_cons_self _ _)).2 x hmm
    · exact ih (fun pr hpr => hdefs pr (List.mem_cons_of_mem _ hpr)) i hi

theorem docsEnd_endpoints {rbd : List (String × List String)}
    {docs : List String} {parts : List (List Item)}
    (hf : List.Forall₂ (docEndRel rbd) docs parts) (keys : List String)
    (hranges : ∀ doc ∈ docs, ∀ ranges, lookupA doc rbd = some ranges →
      ∀ x ∈ ranges, x ∈ keys) :
    ∀ i ∈ parts.flatten, ∀ x ∈ edgeRangeEndpoints i, x ∈ keys := by
  induction hf with
  | nil => intro i hi; simp at hi
  | cons hrel hff ih =>
    rename_i doc items docs' parts'
    obtain ⟨ranges, hlk, hitems⟩ := hrel
    intro i hi
    rw [List.flatten_cons, List.mem_append] at hi
    rcases hi with hi | hi
    · rw [hitems] at hi
      simp only [List.mem_cons, List.not_mem_nil, or_false] at hi
      rcases hi with rfl | rfl
      · intro x hx
        rw [endpoints_makeContains] at hx
        exact hranges doc (List.mem_cons_self _ _) ranges hlk x hx
      · intro x hx
        rw [show edgeRangeEndpoints (makeDocumentEnd doc) = [] from by
          simp [edgeRangeEndpoints, makeDocumentEnd]] at hx
        cases hx
    · exact ih (fun dd hdd => hranges dd (List.mem_cons_of_mem _ hdd)) i hi

theorem countP_groups_rangeVertex_zero {st : EngineState}
    {l : List (String × List String)} {parts : List (List Item)}
    (hgf : List.Forall₂ (groupRel st) l parts) (rid : String) :
    parts.flatten.countP (isRangeVertexWithId rid) = 0 := by
  rw [countP_groups_sum hgf (isRangeVertexWithId rid) (fun _ => 0)
    (fun d refs defLoc groups => countP_core_zero st d refs defLoc groups _
      (by simp [isRangeVertexWithId, makeResultSet])
      (by simp [isRangeVertexWithId, makeNextDef])
      (fun im => by simp [isRangeVertexWithId, makeImportMonikerV])
      (by simp [isRangeVertexWithId, makeImportMonikerE])
      (fun pk => by simp [isRangeVertexWithId, makePackageV])
      (fun pk mon => by simp [isRangeVertexWithId, makePackageE])
      (by simp [isRangeVertexWithId, makeDefinitionResult])
      (by simp [isRangeVertexWithId, makeTdDefinition])
      (by simp [isRangeVertexWithId, makeItemDefinition])
      (fun hs => by simp [isRangeVertexWithId, makeHoverV])
      (by simp [isRangeVertexWithId, makeTdHover])
      (by simp [isRangeVertexWithId, makeReferenceResult])
      (by simp [isRangeVertexWithId, makeTdReferences])
      (by simp [isRangeVertexWithId, makeItemRefDefinitions])
      (fun r' => by simp [isRangeVertexWithId, makeNextRef])
      (fun u rs => by simp [isRangeVertexWithId, makeItemRefReferences])
      (fun em => by simp [isRangeVertexWithId, makeExportMonikerV])
      (by simp [isRangeVertexWithId, makeExportMonikerE]))]
  simp

theorem countP_stream_rangeVertex {st : EngineState} {r g : String}
    {gparts eparts : List (List Item)}
    (hgf : List.Forall₂ (groupRel st) st.refsByDef gparts)
    (hef : List.Forall₂ (docEndRel st.rangesByDoc) st.docs eparts)
    (hloc : ∀ q ∈ st.locByRange, stringifyLocation q.2 = q.1)
    (rid : String) :
    ([makeMeta r g, makeProject, makeProjectBegin]
      ++ st.docs.flatMap emitDocsBegin
      ++ st.locByRange.map (fun p => makeRange p.2)
      ++ gparts.flatten ++ eparts.flatten
      ++ [makeProjectContains st.docs, makeProjectEnd]).countP
      (isRangeVertexWithId rid) = (st.locByRange.map Prod.fst).count rid := by
  simp only [List.countP_append]
  rw [show ([makeMeta r g, makeProject, makeProjectBegin] :
      List Item).countP (isRangeVertexWithId rid) = 0 from by
      simp [isRangeVertexWithId, makeMeta, makeProject, makeProjectBegin,
        List.countP_cons],
    countP_docsBegin_zero _ st.docs
      (fun doc => by simp [isRangeVertexWithId, makeDocumentVertex])
      (fun doc => by simp [isRangeVertexWithId, makeDocumentBegin]),
    countP_groups_rangeVertex_zero hgf rid,
    countP_docsEnd_zero _ hef
      (fun doc ranges => by simp [isRangeVertexWithId, makeContains])
      (fun doc => by simp [isRangeVertexWithId, makeDocumentEnd]),
    show ([makeProjectContains st.docs, makeProjectEnd] :
      List Item).countP (isRangeVertexWithId rid) = 0 from by
      simp [isRangeVertexWithId, makeProjectContains, makeProjectEnd,
        List.countP_cons]]
  have hR : (st.locByRange.map (fun q => makeRange q.2)).countP
      (isRangeVertexWithId rid) = (st.locByRange.map Prod.fst).count rid := by
    rw [List.countP_map, List.count, List.countP_map]
    refine List.countP_congr ?_
    intro q hq
    by_cases hqr : q.1 = rid <;>
      simp [isRangeVertexWithId, makeRange, hloc q hq, hqr]
  rw [hR]
  omega

/-- C6: in a successful run over a well-formed correlated state (range
keys are the re-stringification of their locations and are distinct;
every definition range, referencing range and contained range is a
registered range key), the stream splits as `out = a ++ b` where the
prefix `a` (metadata through the range-vertex segment) contains every
range vertex and no edge with range endpoints, the suffix `b` contains
no range vertex, every range identity used as an edge endpoint in `b`
(next-edge source, item-edge target, document-containment target) is
carried by exactly one range vertex in `a` — i.e. it was emitted earlier
in the stream, exactly once — and every registered range, in particular
every fact range and definitionRange, yields exactly one range vertex in
the whole stream. -/
theorem claim_c6_closure {st : EngineState} {r g : String} {out : List Item}
    (h : ffff st r g = .ok out)
    (hloc : ∀ q ∈ st.locByRange, stringifyLocation q.2 = q.1)
    (hnd : (st.locByRange.map Prod.fst).Nodup)
    (hdefs : ∀ pr ∈ st.refsByDef, pr.1 ∈ st.locByRange.map Prod.fst ∧
      ∀ rr ∈ pr.2, rr ∈ st.locByRange.map Prod.fst)
    (hdocs : ∀ doc ∈ st.docs, ∀ ranges,
      lookupA doc st.rangesByDoc = some ranges →
      ∀ rr ∈ ranges, rr ∈ st.locByRange.map Prod.fst) :
    ∃ a b, out = a ++ b ∧
      (∀ i ∈ a, edgeRangeEndpoints i = []) ∧
      (∀ i ∈ b, i.label ≠ "range") ∧
      (∀ rid, (∃ i ∈ b, rid ∈ edgeRangeEndpoints i) →
        a.countP (isRangeVertexWithId rid) = 1) ∧
      (∀ q ∈ st.locByRange, out.countP (isRangeVertexWithId q.1) = 1) ∧
      (∀ pr ∈ st.refsByDef, out.countP (isRangeVertexWithId pr.1) = 1 ∧
        ∀ rr ∈ pr.2, out.countP (isRangeVertexWithId rr) = 1) := by
  obtain ⟨ds, es, h1, h2, hout⟩ := ffff_ok_decomp h
  obtain ⟨gparts, hgf, hgeq⟩ := emitGroups_ok h1
  obtain ⟨eparts, hef, heeq⟩ := emitDocsEndAux_ok h2
  subst hgeq heeq
  refine ⟨[makeMeta r g, makeProject, makeProjectBegin]
      ++ st.docs.flatMap emitDocsBegin
      ++ st.locByRange.map (fun p => makeRange p.2),
    gparts.flatten ++ eparts.flatten
      ++ [makeProjectContains st.docs, makeProjectEnd], ?_, ?_, ?_, ?_, ?_, ?_⟩
  · rw [hout]
    simp [List.append_assoc]
  · intro i hi
    rw [List.mem_append, List.mem_append] at hi
    rcases hi with (hi | hi) | hi
    · simp only [List.mem_cons, List.not_mem_nil, or_false] at hi
      rcases hi with rfl | rfl | rfl
      · simp [edgeRangeEndpoints, makeMeta]
      · simp [edgeRangeEndpoints, makeProject]
      · simp [edgeRangeEndpoints, makeProjectBegin]
    · exact docs_flatMap_endpoints st.docs i hi
    · exact ranges_map_endpoints st.locByRange i hi
  · have hzg : gparts.flatten.countP
        (fun i => decide (i.label = "range")) = 0 := by
      rw [countP_groups_sum hgf (fun i => decide (i.label = "range"))
        (fun _ => 0)
        (fun d refs defLoc groups => countP_core_zero st d refs defLoc groups _
          (by simp [makeResultSet])
          (by simp [makeNextDef])
          (fun im => by simp [makeImportMonikerV])
          (by simp [makeImportMonikerE])
          (fun pk => by simp [makePackageV])
          (fun pk mon => by simp [makePackageE])
          (by simp [makeDefinitionResult])
          (by simp [makeTdDefinition])
          (by simp [makeItemDefinition])
          (fun hs => by simp [makeHoverV])
          (by simp [makeTdHover])
          (by simp [makeReferenceResult])
          (by simp [makeTdReferences])
          (by simp [makeItemRefDefinitions])
          (fun r' => by simp [makeNextRef])
          (fun u rs => by simp [makeItemRefReferences])
          (fun em => by simp [makeExportMonikerV])
          (by simp [makeExportMonikerE]))]
      simp
    intro i hi hlab
    rw [List.mem_append, List.mem_append] at hi
    rcases hi with (hi | hi) | hi
    · have hz := List.countP_eq_zero.mp hzg i hi
      exact hz (by simp [hlab])
    · have hze : eparts.flatten.countP
          (fun i => decide (i.label = "range")) = 0 :=
        countP_docsEnd_zero _ hef
          (fun doc ranges => by simp [makeContains])
          (fun doc => by simp [makeDocumentEnd])
      have hz := List.countP_eq_zero.mp hze i hi
      exact hz (by simp [hlab])
    · simp only [List.mem_cons, List.not_mem_nil, or_false] at hi
      rcases hi with rfl | rfl
      · simp [makeProjectContains] at hlab
      · simp [makeProjectEnd] at hlab
  · intro rid ⟨i, hi, hx⟩
    have hkey : rid ∈ st.locByRange.map Prod.fst := by
      rw [List.mem_append, List.mem_append] at hi
      rcases hi with (hi | hi) | hi
      · exact groups_endpoints hgf _ hdefs i hi rid hx
      · exact docsEnd_endpoints hef _ hdocs i hi rid hx
      · simp only [List.mem_cons, List.not_mem_nil, or_false] at hi
        rcases hi with rfl | rfl
        · rw [endpoints_makeProjectContains] at hx
          cases hx
        · rw [show edgeRangeEndpoints makeProjectEnd = [] from by
            simp [edgeRangeEndpoints, makeProjectEnd]] at hx
          cases hx
    simp only [List.countP_append]
    rw [show ([makeMeta r g, makeProject, makeProjectBegin] :
        List Item).countP (isRangeVertexWithId rid) = 0 from by
        simp [isRangeVertexWithId, makeMeta, makeProject, makeProjectBegin,
          List.countP_cons],
      countP_docsBegin_zero _ st.docs
        (fun doc => by simp [isRangeVertexWithId, makeDocumentVertex])
        (fun doc => by simp [isRangeVertexWithId, makeDocumentBegin])]
    have hR : (st.locByRange.map (fun q => makeRange q.2)).countP
        (isRangeVertexWithId rid) = (st.locByRange.map Prod.fst).count rid := by
      rw [List.countP_map, List.count, List.countP_map]
      refine List.countP_congr ?_
      intro q hq
      by_cases hqr : q.1 = rid <;>
        simp [isRangeVertexWithId, makeRange, hloc q hq, hqr]
    rw [hR, List.count_eq_one_of_mem hnd hkey]
  · intro q hq
    rw [hout, countP_stream_rangeVertex hgf hef hloc q.1,
      List.count_eq_one_of_mem hnd (List.mem_map_of_mem Prod.fst hq)]
  · intro pr hpr
    obtain ⟨h1d, h2d⟩ := hdefs pr hpr
    refine ⟨?_, fun rr hrr => ?_⟩
    · rw [hout, countP_stream_rangeVertex hgf hef hloc pr.1,
        List.count_eq_one_of_mem hnd h1d]
    · rw [hout, countP_stream_rangeVertex hgf hef hloc rr,
        List.count_eq_one_of_mem hnd (h2d rr hrr)]

/-- C6 witness: the closure decomposition at the concrete state
`egEmptyHover`. -/
theorem claim_c6_witness :
    ∃ a b, (ffff egEmptyHover "r" "g").toOption.getD [] = a ++ b ∧
      (∀ i ∈ a, edgeRangeEndpoints i = []) ∧
      (∀ i ∈ b, i.label ≠ "range") ∧
      (∀ rid, (∃ i ∈ b, rid ∈ edgeRangeEndpoints i) →
        a.countP (isRangeVertexWithId rid) = 1) ∧
      (∀ q ∈ egEmptyHover.locByRange,
        ((ffff egEmptyHover "r" "g").toOption.getD []).countP
          (isRangeVertexWithId q.1) = 1) ∧
      (∀ pr ∈ egEmptyHover.refsByDef,
        ((ffff egEmptyHover "r" "g").toOption.getD []).countP
          (isRangeVertexWithId pr.1) = 1 ∧
        ∀ rr ∈ pr.2,
          ((ffff egEmptyHover "r" "g").toOption.getD []).countP
            (isRangeVertexWithId rr) = 1) :=
  @claim_c6_closure egEmptyHover "r" "g"
    ((ffff egEmptyHover "r" "g").toOption.getD []) rfl (by decide) (by decide)
    (by decide)
    (by
      intro doc hdoc ranges hrng
      simp only [egEmptyHover, List.mem_singleton] at hdoc
      subst hdoc
      have hr : ranges = ["a:0:0"] := by
        have hh : some ["a:0:0"] = some ranges := by rw [← hrng]; rfl
        injection hh with hh
        exact hh.symm
      subst hr
      decide)
